import Mathlib

/-!
Verification development for the video-analyzer repository.

The Python sources are shallowly embedded as executable Lean definitions:

* text is modelled as `List Char` (Python `str`); string-classification
  primitives (`str.isalnum`, `str.lower`, whitespace stripping) are modelled
  on their ASCII behaviour;
* Python exceptions are modelled by the `PyErr` type and fallible code by
  `Option`/`Except`;
* JSON values (`json.loads`) are modelled by the inductive type `Json` and an
  executable recursive-descent parser; number literals are kept as their
  lexeme (their numeric value plays no role in any claim);
* `datetime` values are modelled as integer seconds; `datetime.now()` becomes
  an explicit `nowT` parameter threaded through the functions that call it;
* Python `float` values (produced by `float(...)` in `time_to_seconds`) are
  modelled exactly by scaled decimal integers (`Dec`, value `m / 10 ^ e`)
  plus `inf`/`-inf`/`nan`, i.e. ideal decimal arithmetic without binary
  rounding.
-/

/-! ## Python string primitives (on `List Char`) -/

/-- Whitespace as recognised by Python `str.strip()` (ASCII part). -/
def isPyWS (c : Char) : Bool :=
  c = ' ' || c = '\t' || c = '\n' || c = '\r' || c = '\x0b' || c = '\x0c'

/-- Drop leading Python whitespace. -/
def trimStart (cs : List Char) : List Char := cs.dropWhile isPyWS

/-- Python `str.strip()`: drop leading and trailing whitespace. -/
def pyStrip (cs : List Char) : List Char :=
  (trimStart (trimStart cs).reverse).reverse

/-- `pat` is a prefix of `cs` (Python `str.startswith`). -/
def lStartsWith : List Char → List Char → Bool
  | [], _ => true
  | _ :: _, [] => false
  | p :: ps, c :: cs => p = c && lStartsWith ps cs

/-- Some occurrence of `pat` as a contiguous substring of `cs`. -/
def containsSub (pat : List Char) : List Char → Bool
  | [] => lStartsWith pat []
  | c :: cs => lStartsWith pat (c :: cs) || containsSub pat cs

/-- The part of `cs` before the first occurrence of `pat`
(all of `cs` when there is none).  This is Python `cs.split(pat)[0]`;
`cs.split(pat)[1]` for `cs` starting with `pat` is
`beforeFirst pat (cs.drop pat.length)`. -/
def beforeFirst (pat : List Char) : List Char → List Char
  | [] => []
  | c :: cs => if lStartsWith pat (c :: cs) then [] else c :: beforeFirst pat cs

/-- Python `str.split(sep)` for a one-character separator:
`splitOnChar ':' "" = [[]]`, matching `"".split(":") == [""]`. -/
def splitOnChar (sep : Char) : List Char → List (List Char)
  | [] => [[]]
  | c :: cs =>
    if c = sep then [] :: splitOnChar sep cs
    else
      match splitOnChar sep cs with
      | [] => [[c]]
      | h :: t => (c :: h) :: t

/-! ## Python exceptions relevant to the claims

The spec's error taxonomy maps onto the exceptions the code actually raises:
`MalformedResponseError` is `json.JSONDecodeError`, `MissingFieldError` is
`KeyError`, `InvalidTimeFormatError` is `ValueError`. -/

inductive PyErr where
  | jsonDecodeError
  | keyError (key : String)
  | typeError
  | attributeError
  | valueError

/-! ## JSON values and `json.loads` -/

/-- A decoded JSON document (Python `json.loads` result).  Objects keep
insertion order like Python dicts; number literals are kept as their lexeme. -/
inductive Json where
  | null
  | bool (b : Bool)
  | num (lexeme : String)
  | str (s : String)
  | arr (elems : List Json)
  | obj (members : List (String × Json))

/-- Opening brace character (written via its code point). -/
def lbrace : Char := Char.ofNat 123

/-- Closing brace character (written via its code point). -/
def rbrace : Char := Char.ofNat 125

/-- First-match association lookup (Python dict subscript; keys are unique
by construction of `dictIns`). -/
def lkp (k : String) : List (String × Json) → Option Json
  | [] => none
  | (k2, v) :: rest => if k2 = k then some v else lkp k rest

/-- Python dict insertion: replace the value of an existing key in place,
otherwise append. -/
def dictIns (m : List (String × Json)) (k : String) (v : Json) :
    List (String × Json) :=
  match m with
  | [] => [(k, v)]
  | (k2, v2) :: rest =>
    if k2 = k then (k, v) :: rest else (k2, v2) :: dictIns rest k v

/-- JSON whitespace (RFC 8259), as skipped by Python's json scanner. -/
def isJsonWS (c : Char) : Bool :=
  c = ' ' || c = '\t' || c = '\n' || c = '\r'

def skipWS (cs : List Char) : List Char := cs.dropWhile isJsonWS

/-- Hex digit value. -/
def hexVal (c : Char) : Option Nat :=
  if c.isDigit then some (c.toNat - 48)
  else if 'a' ≤ c && c ≤ 'f' then some (c.toNat - 87)
  else if 'A' ≤ c && c ≤ 'F' then some (c.toNat - 55)
  else none

/-- Single-character JSON escapes. -/
def escChar (c : Char) : Option Char :=
  if c = '"' then some '"'
  else if c = '\\' then some '\\'
  else if c = '/' then some '/'
  else if c = 'b' then some '\x08'
  else if c = 'f' then some '\x0c'
  else if c = 'n' then some '\n'
  else if c = 'r' then some '\r'
  else if c = 't' then some '\t'
  else none

/-- Body of a JSON string after the opening quote: returns the decoded
characters and the remainder after the closing quote.  Python's strict mode
rejects raw control characters. -/
def jstrChars : List Char → Option (List Char × List Char)
  | [] => none
  | c :: cs =>
    if c = '"' then some ([], cs)
    else if c = '\\' then
      match cs with
      | [] => none
      | e :: cs2 =>
        if e = 'u' then
          match cs2 with
          | h1 :: h2 :: h3 :: h4 :: cs3 =>
            match hexVal h1, hexVal h2, hexVal h3, hexVal h4 with
            | some a, some b, some c4, some d =>
              match jstrChars cs3 with
              | some (s, r) =>
                some (Char.ofNat (((a * 16 + b) * 16 + c4) * 16 + d) :: s, r)
              | none => none
            | _, _, _, _ => none
          | _ => none
        else
          match escChar e with
          | some ec =>
            match jstrChars cs2 with
            | some (s, r) => some (ec :: s, r)
            | none => none
          | none => none
    else if c.toNat < 32 then none
    else
      match jstrChars cs with
      | some (s, r) => some (c :: s, r)
      | none => none

/-- Digit-run scan for JSON numbers (no underscores in JSON). -/
def jdigits (cs : List Char) : List Char × List Char :=
  (cs.takeWhile Char.isDigit, cs.dropWhile Char.isDigit)

/-- A valid JSON integer part: `0`, or a nonzero digit followed by digits. -/
def validIntPart (ds : List Char) : Bool :=
  match ds with
  | [] => false
  | [_] => true
  | d :: _ => d ≠ '0'

/-- Scan a JSON number starting at `cs` (which starts with `-` or a digit);
returns the lexeme and the remainder, or `none` if malformed. -/
def jnumScan (cs : List Char) : Option (List Char × List Char) :=
  let (sgn, cs1) :=
    match cs with
    | '-' :: r => (['-'], r)
    | r => (([] : List Char), r)
  let (ip, cs2) := jdigits cs1
  if !validIntPart ip then none
  else
    let (fp, cs3) :=
      match cs2 with
      | '.' :: r =>
        let (ds, r2) := jdigits r
        if ds = [] then (none, cs2) else (some ('.' :: ds), r2)
      | _ => (none, cs2)
    match fp, cs3 with
    | none, '.' :: _ => none
    | _, _ =>
      let fpl := fp.getD []
      match cs3 with
      | e :: r =>
        if e = 'e' || e = 'E' then
          let (es, r1) :=
            match r with
            | '+' :: r2 => (['+'], r2)
            | '-' :: r2 => (['-'], r2)
            | r2 => (([] : List Char), r2)
          let (eds, r2) := jdigits r1
          if eds = [] then none
          else some (sgn ++ ip ++ fpl ++ e :: es ++ eds, r2)
        else some (sgn ++ ip ++ fpl, cs3)
      | [] => some (sgn ++ ip ++ fpl, cs3)

mutual

/-- Recursive-descent JSON value parser (Python `json.loads` grammar,
including Python's `NaN` / `Infinity` / `-Infinity` extensions); `fuel`
only bounds recursion depth. -/
def parseVal : Nat → List Char → Option (Json × List Char)
  | 0, _ => none
  | fuel + 1, cs =>
    match skipWS cs with
    | [] => none
    | c :: rest =>
      if c = '"' then
        match jstrChars rest with
        | some (s, r) => some (.str (String.mk s), r)
        | none => none
      else if c = '[' then parseArrElems fuel (skipWS rest) true
      else if c = lbrace then parseObjMembers fuel (skipWS rest) true []
      else if lStartsWith "true".data (c :: rest) then
        some (.bool true, rest.drop 3)
      else if lStartsWith "false".data (c :: rest) then
        some (.bool false, rest.drop 4)
      else if lStartsWith "null".data (c :: rest) then
        some (.null, rest.drop 3)
      else if lStartsWith "NaN".data (c :: rest) then
        some (.num "NaN", rest.drop 2)
      else if lStartsWith "Infinity".data (c :: rest) then
        some (.num "Infinity", rest.drop 7)
      else if lStartsWith "-Infinity".data (c :: rest) then
        some (.num "-Infinity", rest.drop 8)
      else
        match jnumScan (c :: rest) with
        | some (lex, r) => some (.num (String.mk lex), r)
        | none => none

/-- Array elements after `[` (whitespace already skipped); `first` is true
before any element has been read. -/
def parseArrElems (fuel : Nat) (cs : List Char) (first : Bool) :
    Option (Json × List Char) :=
  match fuel with
  | 0 => none
  | f + 1 =>
    match cs, first with
    | ']' :: r, true => some (.arr [], r)
    | _, _ =>
      match parseVal f cs with
      | some (v, r) =>
        match skipWS r with
        | ',' :: r2 =>
          match parseArrElems f (skipWS r2) false with
          | some (.arr vs, r3) => some (.arr (v :: vs), r3)
          | _ => none
        | ']' :: r2 => some (.arr [v], r2)
        | _ => none
      | none => none

/-- Object members after the opening brace (whitespace already skipped);
duplicate keys overwrite in place like Python dicts. -/
def parseObjMembers (fuel : Nat) (cs : List Char) (first : Bool)
    (acc : List (String × Json)) : Option (Json × List Char) :=
  match fuel with
  | 0 => none
  | f + 1 =>
    match cs, first with
    | c :: r, true =>
      if c = rbrace then some (.obj acc, r)
      else parseObjMember f (c :: r) acc
    | _, _ => parseObjMember f cs acc

/-- One `"key" : value` object member, then `,` or the closing brace. -/
def parseObjMember (fuel : Nat) (cs : List Char)
    (acc : List (String × Json)) : Option (Json × List Char) :=
  match fuel with
  | 0 => none
  | f + 1 =>
    match cs with
    | '"' :: r =>
      match jstrChars r with
      | some (k, r1) =>
        match skipWS r1 with
        | ':' :: r2 =>
          match parseVal f r2 with
          | some (v, r3) =>
            let acc2 := dictIns acc (String.mk k) v
            match skipWS r3 with
            | ',' :: r4 => parseObjMembers f (skipWS r4) false acc2
            | c :: r4 =>
              if c = rbrace then some (.obj acc2, r4) else none
            | [] => none
          | none => none
        | _ => none
      | none => none
    | _ => none

end

/-- Python `json.loads`: parse one JSON document, reject trailing garbage.
`none` models `json.JSONDecodeError`. -/
def jsonLoads (cs : List Char) : Option Json :=
  match parseVal (2 * cs.length + 2) cs with
  | some (v, rest) => if skipWS rest = [] then some v else none
  | none => none

/-! ## `core.py`: `VideoSegment` and `analyze_video_segments` response parsing -/

/-- Constructor arguments of `core.VideoSegment` as built by
`analyze_video_segments`.  Python is dynamically typed, so the values taken
from the decoded JSON are stored as they are. -/
structure ParsedSegment where
  start_time : Json
  end_time : Json
  activity : Json
  description : Json

/-- Python `for seg in segments_data`: arrays iterate over their elements,
dicts over their keys, strings over their characters; other values raise
`TypeError` (not iterable). -/
def pyIterate : Json → Except PyErr (List Json)
  | .arr xs => .ok xs
  | .obj kvs => .ok (kvs.map fun kv => .str kv.1)
  | .str s => .ok (s.data.map fun ch => .str (String.mk [ch]))
  | _ => .error .typeError

/-- Python `seg[key]` for a string key: `KeyError` on a dict without the
key, `TypeError` on any non-dict value. -/
def pySubscript (v : Json) (k : String) : Except PyErr Json :=
  match v with
  | .obj kvs =>
    match lkp k kvs with
    | some x => .ok x
    | none => .error (.keyError k)
  | _ => .error .typeError

/-- Python `seg.get(key, default)`: only dicts have `.get`;
anything else raises `AttributeError`. -/
def pyGetDefault (v : Json) (k : String) (dflt : Json) : Except PyErr Json :=
  match v with
  | .obj kvs =>
    match lkp k kvs with
    | some x => .ok x
    | none => .ok dflt
  | _ => .error .attributeError

/-- Build one `VideoSegment` from a decoded element, evaluating the
constructor arguments in source order. -/
def mkSegment (seg : Json) : Except PyErr ParsedSegment :=
  match pySubscript seg "start_time" with
  | .error ex => .error ex
  | .ok st =>
    match pySubscript seg "end_time" with
    | .error ex => .error ex
    | .ok et =>
      match pySubscript seg "activity" with
      | .error ex => .error ex
      | .ok ac =>
        match pyGetDefault seg "description" (.str "") with
        | .error ex => .error ex
        | .ok de => .ok ⟨st, et, ac, de⟩

/-- Build one segment per iterated element, left to right, stopping at
the first exception (the body of the list comprehension). -/
def mapSegments : List Json → Except PyErr (List ParsedSegment)
  | [] => .ok []
  | e :: rest =>
    match mkSegment e with
    | .error ex => .error ex
    | .ok s =>
      match mapSegments rest with
      | .error ex => .error ex
      | .ok ss => .ok (s :: ss)

/-- The list comprehension over `segments_data`: iterate, then build a
segment per element, stopping at the first exception. -/
def extractSegments (v : Json) : Except PyErr (List ParsedSegment) :=
  match pyIterate v with
  | .error ex => .error ex
  | .ok elems => mapSegments elems

/-- Triple backtick. -/
def tb : List Char := ['`', '`', '`']

/-- The tagged fence opener. -/
def fj : List Char := tb ++ ['j', 's', 'o', 'n']

/-- Markdown-fence stripping from `analyze_video_segments` (the text has
already been stripped): `split(sep)[1]` for a text starting with `sep` is
the part after `sep` up to its next occurrence, and `split(sep)[0]` is
`beforeFirst`. -/
def stripFences (t : List Char) : List Char :=
  if lStartsWith fj t then
    pyStrip (beforeFirst tb (beforeFirst fj (t.drop fj.length)))
  else if lStartsWith tb t then
    pyStrip (beforeFirst tb (beforeFirst tb (t.drop tb.length)))
  else t

/-- The text handed to `json.loads`: the reply stripped of surrounding
whitespace, then of an optional markdown fence. -/
def respText (raw : List Char) : List Char := stripFences (pyStrip raw)

/-- The response-parsing tail of `analyze_video_segments`: from the raw
reply text to the list of segments (the upload and generation calls are
external collaborators). -/
def parseResponse (raw : List Char) : Except PyErr (List ParsedSegment) :=
  match jsonLoads (respText raw) with
  | none => .error .jsonDecodeError
  | some v => extractSegments v

/-- An element that is an object containing the three required keys
(from the spec's words). -/
def objHasKeys (e : Json) : Bool :=
  match e with
  | .obj kvs =>
    (lkp "start_time" kvs).isSome && (lkp "end_time" kvs).isSome &&
      (lkp "activity" kvs).isSome
  | _ => false

/-- The claim's success shape, from the spec's words: a JSON array of
objects each containing the three required keys. -/
def isArrObjsWithKeys (v : Json) : Bool :=
  match v with
  | .arr xs => xs.all objHasKeys
  | _ => false

/-- The segment an element with the required keys is mapped to
(description defaulting to the empty string). -/
def segOf (e : Json) : ParsedSegment :=
  match e with
  | .obj kvs =>
    ⟨(lkp "start_time" kvs).getD .null, (lkp "end_time" kvs).getD .null,
      (lkp "activity" kvs).getD .null, (lkp "description" kvs).getD (.str "")⟩
  | _ => ⟨.null, .null, .null, .null⟩

/-! ## `extractor.py`: `time_to_seconds` and filename derivation -/

/-- Exact decimal value `m / 10 ^ e`.  Every finite value produced by
`float(...)` on a decimal literal is of this form; this models the ideal
value, ignoring binary-float rounding (no claim depends on it). -/
structure Dec where
  m : Int
  e : Nat

/-- `10 ^ n` by structural recursion (kernel-reducible). -/
def pow10 : Nat → Int
  | 0 => 1
  | n + 1 => 10 * pow10 n

/-- The two decimals denote the same rational:
`a.m / 10 ^ a.e = b.m / 10 ^ b.e` cleared of denominators. -/
def Dec.eqv (a b : Dec) : Bool := a.m * pow10 b.e = b.m * pow10 a.e

/-- Exact decimal addition (common denominator `10 ^ max`). -/
def Dec.add (a b : Dec) : Dec :=
  ⟨a.m * pow10 (max a.e b.e - a.e) + b.m * pow10 (max a.e b.e - b.e),
    max a.e b.e⟩

/-- An integer as a decimal. -/
def Dec.ofInt (n : Int) : Dec := ⟨n, 0⟩

/-- A Python `float`: a finite (decimal-exact) value, an infinity, or NaN. -/
inductive PyFloat where
  | finite (d : Dec)
  | inf
  | ninf
  | nan

/-- Python `int + float`. -/
def PyFloat.addInt (n : Int) : PyFloat → PyFloat
  | .finite d => .finite (Dec.add (Dec.ofInt n) d)
  | .inf => .inf
  | .ninf => .ninf
  | .nan => .nan

/-- Digit run with single underscores between digits (Python numeric
literal syntax for `int()`/`float()`); returns value and digit count. -/
def uRunGo (accV accC : Nat) : List Char → Option (Nat × Nat)
  | [] => some (accV, accC)
  | '_' :: d :: r =>
    if d.isDigit then uRunGo (accV * 10 + (d.toNat - 48)) (accC + 1) r
    else none
  | ['_'] => none
  | d :: r =>
    if d.isDigit then uRunGo (accV * 10 + (d.toNat - 48)) (accC + 1) r
    else none

/-- A whole list as an underscored digit run. -/
def uRun : List Char → Option (Nat × Nat)
  | [] => none
  | d :: r => if d.isDigit then uRunGo (d.toNat - 48) 1 r else none

/-- Optional sign: returns 1 or -1 and the rest. -/
def splitSign : List Char → Int × List Char
  | '+' :: r => (1, r)
  | '-' :: r => (-1, r)
  | r => (1, r)

/-- Python `int(s)` for base 10: optional surrounding whitespace, optional
sign, an underscored digit run.  `none` models `ValueError`.  (Non-ASCII
digits and whitespace accepted by CPython are out of the modelled range.) -/
def pyInt (cs : List Char) : Option Int :=
  let (sgn, body) := splitSign (pyStrip cs)
  match uRun body with
  | some (v, _) => some (sgn * v)
  | none => none

/-- Split a list at the first occurrence of one of two marker characters. -/
def splitAtChar2 (a b : Char) : List Char → (List Char × Option (List Char))
  | [] => ([], none)
  | c :: cs =>
    if c = a || c = b then ([], some cs)
    else
      match splitAtChar2 a b cs with
      | (pre, post) => (c :: pre, post)

/-- The mantissa of a Python float literal: `digits`, `digits.`,
`digits.digits` or `.digits` (underscores allowed inside each run);
returns the integer value of all digits and the number of fraction
digits. -/
def floatMantissa (cs : List Char) : Option (Nat × Nat) :=
  match splitAtChar2 '.' '.' cs with
  | (ip, none) => (uRun ip).map fun p => (p.1, 0)
  | (ip, some fp) =>
    if containsSub ['.'] fp then none
    else
      match ip, fp with
      | [], [] => none
      | [], _ =>
        (uRun fp).map fun p => (p.1, p.2)
      | _, [] =>
        (uRun ip).map fun p => (p.1, 0)
      | _, _ =>
        match uRun ip, uRun fp with
        | some p, some q => some ((↑p.1 * pow10 q.2).toNat + q.1, q.2)
        | _, _ => none

/-- Python `float(s)`: optional surrounding whitespace and sign, then a
decimal literal with optional exponent, or the case-insensitive literals
`inf` / `infinity` / `nan`.  `none` models `ValueError`. -/
def pyFloat (cs : List Char) : Option PyFloat :=
  let (sgn, body) := splitSign (pyStrip cs)
  let low := body.map Char.toLower
  if low = "inf".data || low = "infinity".data then
    some (if sgn = 1 then .inf else .ninf)
  else if low = "nan".data then some .nan
  else
    match splitAtChar2 'e' 'E' body with
    | (mant, expPart) =>
      match floatMantissa mant with
      | none => none
      | some (mv, fc) =>
        match expPart with
        | none => some (.finite ⟨sgn * mv, fc⟩)
        | some es =>
          let (esgn, edigits) := splitSign es
          match uRun edigits with
          | none => none
          | some (ev, _) =>
            let shift : Int := esgn * ev - fc
            if 0 ≤ shift then
              some (.finite ⟨sgn * mv * pow10 shift.toNat, 0⟩)
            else
              some (.finite ⟨sgn * mv, (-shift).toNat⟩)

/-- A failed `int(...)` / `float(...)` conversion raises `ValueError`. -/
def toEx {a : Type} (o : Option a) : Except PyErr a :=
  match o with
  | some x => .ok x
  | none => .error .valueError

/-- `VideoExtractor.time_to_seconds`: split on `:`;
two fields give `int(m) * 60 + float(s)`, three give
`int(h) * 3600 + int(m) * 60 + float(s)`; anything else raises
`ValueError` (as do the failing conversions themselves). -/
def timeToSeconds (s : String) : Except PyErr PyFloat :=
  match splitOnChar ':' s.data with
  | [mm, ss] => do
    let mi ← toEx (pyInt mm)
    let f ← toEx (pyFloat ss)
    pure (PyFloat.addInt (mi * 60) f)
  | [hh, mm, ss] => do
    let hi ← toEx (pyInt hh)
    let mi ← toEx (pyInt mm)
    let f ← toEx (pyFloat ss)
    pure (PyFloat.addInt (hi * 3600 + mi * 60) f)
  | _ => .error .valueError

/-- The segment value type of `core.VideoSegment` as used by the extractor
(all four fields are strings in every claim-relevant run). -/
structure VideoSegment where
  start_time : String
  end_time : String
  activity : String
  description : String

/-- One character of the activity-name sanitisation comprehension:
keep ASCII alphanumerics, space, hyphen and underscore, replace the rest
by underscore.  (Python `str.isalnum` is Unicode-aware; the model uses its
ASCII behaviour.) -/
def sanitizeChar (c : Char) : Char :=
  if c.isAlphanum || c = ' ' || c = '-' || c = '_' then c else '_'

/-- `safe_activity` from `extract_all_segments`: the comprehension, then
`.replace(" ", "_")`, then `.lower()`. -/
def sanitizeActivity (a : String) : String :=
  String.mk
    (((a.data.map sanitizeChar).map fun c => if c = ' ' then '_' else c).map
      Char.toLower)

/-- `f"{i:03d}"` for the 1-based segment index. -/
def pad3 (n : Nat) : String :=
  let s := toString n
  if s.length < 3 then String.mk (List.replicate (3 - s.length) '0') ++ s else s

/-- The output filename `f"{prefix}_{i:03d}_{safe_activity}{ext}"`. -/
def outputFilename (pfx : String) (i : Nat) (activity ext : String) : String :=
  pfx ++ "_" ++ pad3 i ++ "_" ++ sanitizeActivity activity ++ ext

/-- The filenames derived by `extract_all_segments`, one per segment in
order, `enumerate(segments, 1)` giving 1-based indices (`ext` is the
extension `os.path.splitext` takes from the input video; the actual
`ffmpeg` invocation is an external collaborator). -/
def outputFilenames (pfx ext : String) (segs : List VideoSegment) :
    List String :=
  segs.mapIdx fun i seg => outputFilename pfx (i + 1) seg.activity ext

/-! ## `video_db.py`: the asset ledger

The store is the `videos` list of the JSON document; every operation is
modelled load-to-save, as a function from the loaded list (plus the
explicit current time `nowT`, in seconds) to the saved list.
`str(Path(local_path).absolute())` depends on the process working
directory and is modelled as the given path; `uploaded_at` is stored as
the integer timestamp itself (`datetime.now().isoformat()` round-trips
through `datetime.fromisoformat`). -/

structure VideoRecord where
  id : Nat
  display_name : String
  local_path : String
  file_id : String
  file_name : String
  description : String
  uploaded_at : Int
  metadata : List (String × Json)

/-- Gemini Files API expiry time (48 hours). -/
def EXPIRY_HOURS : Int := 48

/-- `Path(local_path).stem`: the final path component without its last
suffix (a leading dot alone is not a suffix). -/
def pathStem (p : String) : String :=
  let base := (beforeFirst ['/'] p.data.reverse).reverse
  let exts := beforeFirst ['.'] base.reverse
  if exts.length + 1 < base.length then
    String.mk (base.take (base.length - exts.length - 1))
  else String.mk base

/-- `add_video`: defaults `display_name` (a falsy value, `None` or the
empty string, falls back to the path stem), `description` and `metadata`;
assigns `id = len(videos) + 1`; appends and saves.  Returns the saved
list and the created entry. -/
def addVideo (db : List VideoRecord) (local_path file_id file_name : String)
    (display_name description : Option String)
    (metadata : Option (List (String × Json))) (nowT : Int) :
    List VideoRecord × VideoRecord :=
  let dn :=
    match display_name with
    | none => pathStem local_path
    | some s => if s = "" then pathStem local_path else s
  let entry : VideoRecord :=
    ⟨db.length + 1, dn, local_path, file_id, file_name,
      description.getD "", nowT, metadata.getD []⟩
  (db ++ [entry], entry)

/-- `get_video`: linear scan, first record with the id. -/
def getVideo (db : List VideoRecord) (video_id : Nat) : Option VideoRecord :=
  db.find? fun v => v.id = video_id

/-- `delete_video`: keep every record whose id differs; the save happens
only when something was removed, but then the filtered list is also the
unchanged list.  Returns the saved list and whether anything was removed. -/
def deleteVideo (db : List VideoRecord) (video_id : Nat) :
    List VideoRecord × Bool :=
  let kept := db.filter fun v => v.id ≠ video_id
  (kept, kept.length < db.length)

/-- The in-place mutation `update_video` applies to the record it finds:
overwrite `display_name` / `description` when the keyword was passed,
`metadata.update(...)` when `metadata` was passed. -/
def applyKwargs (v : VideoRecord) (display_name description : Option String)
    (metadata : Option (List (String × Json))) : VideoRecord :=
  let v1 :=
    match display_name with
    | some d => { v with display_name := d }
    | none => v
  let v2 :=
    match description with
    | some d => { v1 with description := d }
    | none => v1
  match metadata with
  | some m => { v2 with metadata := m.foldl (fun acc kv => dictIns acc kv.1 kv.2) v2.metadata }
  | none => v2

/-- `update_video`: scan for the first record with the id, mutate it,
save, return `True`; `False` (and no save) when no record matches. -/
def updateVideo (db : List VideoRecord) (video_id : Nat)
    (display_name description : Option String)
    (metadata : Option (List (String × Json))) : List VideoRecord × Bool :=
  match db with
  | [] => ([], false)
  | v :: rest =>
    if v.id = video_id then
      (applyKwargs v display_name description metadata :: rest, true)
    else
      (v :: (updateVideo rest video_id display_name description metadata).1,
        (updateVideo rest video_id display_name description metadata).2)

/-- `get_expiry_time`: `uploaded_at + timedelta(hours=EXPIRY_HOURS)`;
a pure function of the record. -/
def getExpiryTime (v : VideoRecord) : Int := v.uploaded_at + EXPIRY_HOURS * 3600

/-- `is_expired`: `datetime.now() > expiry_time`. -/
def isExpired (nowT : Int) (v : VideoRecord) : Bool := getExpiryTime v < nowT

/-- `get_time_until_expiry`: `expiry_time - datetime.now()`. -/
def timeUntilExpiry (nowT : Int) (v : VideoRecord) : Int :=
  getExpiryTime v - nowT

/-- Result of `cleanup_expired`: the returned id lists, the resulting
store, and how many times `_save_db` ran. -/
structure CleanupResult where
  deleted : List Nat
  kept : List Nat
  store : List VideoRecord
  saves : Nat

/-- One iteration of the `cleanup_expired` loop over `(to_delete, kept)`:
an expired record is marked for deletion unless the remote check reports
the file still active, in which case its id is appended to `kept`; a
record not marked for deletion gets its id appended to `kept` unless
already there (the remote-kept append just above skips this membership
test). -/
def cleanupStep (nowT : Int) (client : Option (VideoRecord → Bool))
    (acc : List Nat × List Nat) (v : VideoRecord) : List Nat × List Nat :=
  if isExpired nowT v then
    match client with
    | some checkExists =>
      if !checkExists v then (acc.1 ++ [v.id], acc.2)
      else (acc.1, acc.2 ++ [v.id])
    | none => (acc.1 ++ [v.id], acc.2)
  else if v.id ∈ acc.2 then acc else (acc.1, acc.2 ++ [v.id])

/-- `cleanup_expired`: fold the loop over the records in order, then
delete and save once — only when the deletion list is nonempty.  The
remote collaborator (`check_file_exists` with a `genai` client) is
modelled as an oracle `VideoRecord → Bool` returning whether the query
succeeded with state `ACTIVE` (any failure counts as `False`). -/
def cleanupExpired (nowT : Int) (client : Option (VideoRecord → Bool))
    (db : List VideoRecord) : CleanupResult :=
  let to_delete := (db.foldl (cleanupStep nowT client) ([], [])).1
  let kept := (db.foldl (cleanupStep nowT client) ([], [])).2
  if to_delete = [] then ⟨to_delete, kept, db, 0⟩
  else ⟨to_delete, kept, db.filter (fun v => v.id ∉ to_delete), 1⟩

/-! ## Reachable ledger states (for the id-uniqueness claim) -/

/-- A mutating ledger operation (the reads do not change the store). -/
inductive LedgerOp where
  | add (local_path file_id file_name : String)
      (display_name description : Option String)
      (metadata : Option (List (String × Json))) (nowT : Int)
  | del (video_id : Nat)
  | upd (video_id : Nat) (display_name description : Option String)
      (metadata : Option (List (String × Json)))

/-- Apply one operation to the stored list. -/
def applyOp (db : List VideoRecord) : LedgerOp → List VideoRecord
  | .add lp fid fn dn de md t => (addVideo db lp fid fn dn de md t).1
  | .del i => (deleteVideo db i).1
  | .upd i dn de md => (updateVideo db i dn de md).1

/-- Apply a sequence of operations to the freshly created empty store. -/
def applyOps (ops : List LedgerOp) : List VideoRecord :=
  ops.foldl applyOp []

/-- Whether an operation is a deletion. -/
def LedgerOp.isDel : LedgerOp → Bool
  | .del _ => true
  | _ => false

/-- A reply whose content is wrapped in a `json`-tagged markdown fence. -/
def jsonWrap (c : List Char) : List Char := fj ++ ('\n' :: c ++ ['\n']) ++ tb

/-- A reply whose content is wrapped in a plain markdown fence. -/
def plainWrap (c : List Char) : List Char := tb ++ ('\n' :: c ++ ['\n']) ++ tb

/-- Whether one pass of the `cleanup_expired` loop marks a record for
deletion: locally expired, and — when a client is supplied — the remote
check comes back negative. -/
def shouldDel (nowT : Int) (client : Option (VideoRecord → Bool))
    (v : VideoRecord) : Bool :=
  if isExpired nowT v then
    match client with
    | some checkExists => !checkExists v
    | none => true
  else false

/-! ## Claim theorems -/

/-- C7: for every record, `expiry_time` equals `uploaded_at + 48` hours (a
pure function of the record); `is_expired` holds exactly when the current
time is past the expiry time; `time_until_expiry` equals expiry minus now
and may be negative; a record uploaded 49 hours ago is expired with
negative time-to-expiry, one uploaded 1 hour ago is not expired. -/
theorem c7_expiry_semantics :
    (∀ v : VideoRecord, getExpiryTime v = v.uploaded_at + 48 * 3600)
    ∧ (∀ (t : Int) (v : VideoRecord),
        (isExpired t v = true ↔ getExpiryTime v < t)
        ∧ timeUntilExpiry t v = getExpiryTime v - t)
    ∧ (∀ (t : Int) (i : Nat) (dn lp fid fn de : String)
        (md : List (String × Json)),
        isExpired t ⟨i, dn, lp, fid, fn, de, t - 49 * 3600, md⟩ = true
        ∧ timeUntilExpiry t ⟨i, dn, lp, fid, fn, de, t - 49 * 3600, md⟩ < 0
        ∧ isExpired t ⟨i, dn, lp, fid, fn, de, t - 3600, md⟩ = false) := by
  refine ⟨fun v => rfl, fun t v => ⟨decide_eq_true_iff, rfl⟩, fun t i dn lp fid fn de md => ⟨?_, ?_, ?_⟩⟩
  · simp only [isExpired, getExpiryTime, EXPIRY_HOURS, decide_eq_true_iff]
    omega
  · simp only [timeUntilExpiry, getExpiryTime, EXPIRY_HOURS]
    omega
  · simp only [isExpired, getExpiryTime, EXPIRY_HOURS, decide_eq_false_iff_not]
    omega

/-- C9: `extract_all_segments` derives the filename of the segment at
1-based index `i` as `prefix + "_" + i` zero-padded to three digits
`+ "_" + sanitize(activity) + ext`, where sanitisation replaces characters
outside alphanumerics, space, hyphen and underscore by underscore, then
spaces by underscores, then lowercases; in particular activity
`"Pick up Cup #1!"` with prefix `"p"` at index 2 gives the stem
`p_002_pick_up_cup__1_`. -/
theorem c9_filename_derivation :
    (∀ (pfx ext : String) (segs : List VideoSegment) (i : Nat),
      (outputFilenames pfx ext segs)[i]? =
        (segs[i]?).map fun seg => outputFilename pfx (i + 1) seg.activity ext)
    ∧ (∀ (pfx : String) (i : Nat) (a ext : String),
        outputFilename pfx i a ext =
          pfx ++ "_" ++ pad3 i ++ "_" ++ sanitizeActivity a ++ ext)
    ∧ (∀ a : String,
        sanitizeActivity a =
          String.mk
            (((a.data.map sanitizeChar).map fun c =>
              if c = ' ' then '_' else c).map Char.toLower))
    ∧ sanitizeActivity "Pick up Cup #1!" = "pick_up_cup__1_"
    ∧ outputFilename "p" 2 "Pick up Cup #1!" ".mp4" =
        "p_002_pick_up_cup__1_.mp4" := by
  refine ⟨fun pfx ext segs i => ?_, fun pfx i a ext => rfl, fun a => rfl, rfl, rfl⟩
  simp [outputFilenames, List.getElem?_mapIdx]

/-- C5: for every valid two-field input `mm:ss` the time converter returns
exactly `mm * 60 + ss` (exact decimal arithmetic), and for every valid
three-field input `hh:mm:ss` exactly `hh * 3600 + mm * 60 + ss`; in
particular `"02:05"` gives `125.0` and `"01:02:03"` gives `3723.0`. -/
theorem c5_time_converter :
    (∀ (s : String) (mm ss : List Char) (mi : Int) (d : Dec),
      splitOnChar ':' s.data = [mm, ss] →
      pyInt mm = some mi →
      pyFloat ss = some (.finite d) →
      timeToSeconds s = .ok (.finite (Dec.add (Dec.ofInt (mi * 60)) d)))
    ∧ (∀ (s : String) (hh mm ss : List Char) (hi mi : Int) (d : Dec),
      splitOnChar ':' s.data = [hh, mm, ss] →
      pyInt hh = some hi →
      pyInt mm = some mi →
      pyFloat ss = some (.finite d) →
      timeToSeconds s =
        .ok (.finite (Dec.add (Dec.ofInt (hi * 3600 + mi * 60)) d)))
    ∧ timeToSeconds "02:05" = .ok (.finite ⟨125, 0⟩)
    ∧ timeToSeconds "01:02:03" = .ok (.finite ⟨3723, 0⟩) := by
  refine ⟨fun s mm ss mi d h1 h2 h3 => ?_, fun s hh mm ss hi mi d h1 h2 h3 h4 => ?_, rfl, rfl⟩
  · simp only [timeToSeconds, h1]
    rw [h2, h3]
    rfl
  · simp only [timeToSeconds, h1]
    rw [h2, h3, h4]
    rfl

/-- C5 witness: the two-field case applied at the concrete input
`"02:05"`, whose fields parse to 2 and 5.0. -/
theorem c5_time_converter_witness :
    timeToSeconds "02:05" = .ok (.finite (Dec.add (Dec.ofInt (2 * 60)) ⟨5, 0⟩)) :=
  c5_time_converter.1 "02:05" "02".data "05".data 2 ⟨5, 0⟩ rfl rfl rfl

/-- C6: the time converter fails with `ValueError` for every input whose
colon-separated field count is not two or three, and for two- or
three-field inputs whose fields fail numeric conversion; in particular for
`""`, `"1:2:3:4"` and `"abc:00"`. -/
theorem c6_invalid_time_format :
    (∀ (s : String) (parts : List (List Char)),
      splitOnChar ':' s.data = parts → parts.length ≠ 2 →
      parts.length ≠ 3 → timeToSeconds s = .error .valueError)
    ∧ (∀ (s : String) (mm ss : List Char),
      splitOnChar ':' s.data = [mm, ss] →
      pyInt mm = none ∨ pyFloat ss = none →
      timeToSeconds s = .error .valueError)
    ∧ (∀ (s : String) (hh mm ss : List Char),
      splitOnChar ':' s.data = [hh, mm, ss] →
      pyInt hh = none ∨ pyInt mm = none ∨ pyFloat ss = none →
      timeToSeconds s = .error .valueError)
    ∧ timeToSeconds "" = .error .valueError
    ∧ timeToSeconds "1:2:3:4" = .error .valueError
    ∧ timeToSeconds "abc:00" = .error .valueError := by
  refine ⟨fun s parts h1 h2 h3 => ?_, fun s mm ss h1 h2 => ?_, fun s hh mm ss h1 h2 => ?_, rfl, rfl, rfl⟩
  · rcases parts with _ | ⟨a, _ | ⟨b, _ | ⟨c, _ | ⟨d, r⟩⟩⟩⟩
    · simp only [timeToSeconds, h1]
    · simp only [timeToSeconds, h1]
    · exact absurd rfl h2
    · exact absurd rfl h3
    · simp only [timeToSeconds, h1]
  · simp only [timeToSeconds, h1]
    rcases h2 with h | h
    · rw [h]
      rfl
    · cases hmi : pyInt mm
      · rfl
      · rw [h]
        rfl
  · simp only [timeToSeconds, h1]
    rcases h2 with h | h | h
    · rw [h]
      rfl
    · cases hmi : pyInt hh
      · rfl
      · rw [h]
        rfl
    · cases hmi : pyInt hh
      · rfl
      · cases hmi2 : pyInt mm
        · rfl
        · rw [h]
          rfl

/-- C6 witness: the field-count case at `"1:2:3:4"` and the non-numeric
case at `"abc:00"`. -/
theorem c6_invalid_time_format_witness :
    timeToSeconds "1:2:3:4" = .error .valueError
    ∧ timeToSeconds "abc:00" = .error .valueError :=
  ⟨c6_invalid_time_format.1 "1:2:3:4"
      ["1".data, "2".data, "3".data, "4".data] rfl (by decide) (by decide),
    c6_invalid_time_format.2.1 "abc:00" "abc".data "00".data rfl (Or.inl rfl)⟩

/-- `applyKwargs` never changes the record id. -/
theorem applyKwargs_id (v : VideoRecord) (dn de : Option String)
    (md : Option (List (String × Json))) : (applyKwargs v dn de md).id = v.id := by
  cases dn <;> cases de <;> cases md <;> rfl

/-- `update_video` changes no record id. -/
theorem updateVideo_map_id (db : List VideoRecord) (i : Nat)
    (dn de : Option String) (md : Option (List (String × Json))) :
    ((updateVideo db i dn de md).1).map VideoRecord.id =
      db.map VideoRecord.id := by
  induction db with
  | nil => rfl
  | cons v rest ih =>
    by_cases h : v.id = i
    · simp [updateVideo, h, applyKwargs_id]
    · simp [updateVideo, h, ih]

/-- In a deletion-free history the stored ids are exactly `1..n` in
order (invariant preserved by `add` and `update`). -/
theorem applyOps_nodel_ids (ops : List LedgerOp) (db : List VideoRecord)
    (hnd : ∀ op ∈ ops, op.isDel = false)
    (hdb : db.map VideoRecord.id = List.range' 1 db.length) :
    (ops.foldl applyOp db).map VideoRecord.id =
      List.range' 1 (ops.foldl applyOp db).length := by
  induction ops generalizing db with
  | nil => exact hdb
  | cons op rest ih =>
    refine ih (applyOp db op) (fun o ho => hnd o (List.mem_cons_of_mem _ ho)) ?_
    cases op with
    | add lp fid fn dn de md t =>
      simp [applyOp, addVideo, hdb, List.range'_concat]
      omega
    | del i => exact absurd (hnd _ (List.mem_cons_self _ _)) (by simp [LedgerOp.isDel])
    | upd i dn de md =>
      have hl : ((updateVideo db i dn de md).1).length = db.length := by
        have := congrArg List.length (updateVideo_map_id db i dn de md)
        simpa using this
      simp [applyOp, updateVideo_map_id, hl, hdb]

/-- C2 counterexample: the claim fails as stated — after
`add, add, delete 1, add` the third add reuses id 2 and the reachable
state holds two records with the same id. -/
theorem c2_id_uniqueness_counterexample :
    (applyOps
      [.add "a.mp4" "f1" "n1" none none none 0,
        .add "b.mp4" "f2" "n2" none none none 0,
        .del 1,
        .add "c.mp4" "f3" "n3" none none none 0]).map VideoRecord.id = [2, 2]
    ∧ ¬ ((applyOps
      [.add "a.mp4" "f1" "n1" none none none 0,
        .add "b.mp4" "f2" "n2" none none none 0,
        .del 1,
        .add "c.mp4" "f3" "n3" none none none 0]).map VideoRecord.id).Nodup := by
  constructor
  · rfl
  · intro h
    have h2 : ¬ ([2, 2] : List Nat).Nodup := by decide
    exact h2 h

/-- C2 (amended): each `add` assigns `id = count_before + 1`, and two
successive adds yield strictly increasing, distinct ids; in any state
reached without deletions the ids are exactly `1..n`, hence unique.
(After a deletion an id can be reused and duplicate ids are reachable;
see the counterexample.) -/
theorem c2_id_assignment :
    (∀ (db : List VideoRecord) (lp fid fn : String)
      (dn de : Option String) (md : Option (List (String × Json))) (t : Int),
      ((addVideo db lp fid fn dn de md t).2).id = db.length + 1)
    ∧ (∀ (db : List VideoRecord) (lp1 fid1 fn1 lp2 fid2 fn2 : String)
      (dn1 de1 dn2 de2 : Option String)
      (md1 md2 : Option (List (String × Json))) (t1 t2 : Int),
      ((addVideo db lp1 fid1 fn1 dn1 de1 md1 t1).2).id = db.length + 1
      ∧ ((addVideo (addVideo db lp1 fid1 fn1 dn1 de1 md1 t1).1
          lp2 fid2 fn2 dn2 de2 md2 t2).2).id = db.length + 2
      ∧ ((addVideo db lp1 fid1 fn1 dn1 de1 md1 t1).2).id <
          ((addVideo (addVideo db lp1 fid1 fn1 dn1 de1 md1 t1).1
            lp2 fid2 fn2 dn2 de2 md2 t2).2).id)
    ∧ (∀ ops : List LedgerOp, (∀ op ∈ ops, op.isDel = false) →
        (applyOps ops).map VideoRecord.id =
          List.range' 1 (applyOps ops).length
        ∧ ((applyOps ops).map VideoRecord.id).Nodup) := by
  refine ⟨fun db lp fid fn dn de md t => rfl,
    fun db lp1 fid1 fn1 lp2 fid2 fn2 dn1 de1 dn2 de2 md1 md2 t1 t2 =>
      ⟨rfl, by simp [addVideo], by simp [addVideo]⟩,
    fun ops hnd => ?_⟩
  have h := applyOps_nodel_ids ops [] hnd rfl
  exact ⟨h, h ▸ List.nodup_range' _ _⟩

/-- C2 witness: the amended delete-free part applied to two concrete
adds: ids come out as `[1, 2]`, without duplicates. -/
theorem c2_id_assignment_witness :
    (applyOps
      [.add "a.mp4" "f1" "n1" none none none 0,
        .add "b.mp4" "f2" "n2" none none none 0]).map VideoRecord.id =
      List.range' 1 (applyOps
        [.add "a.mp4" "f1" "n1" none none none 0,
          .add "b.mp4" "f2" "n2" none none none 0]).length
    ∧ ((applyOps
      [.add "a.mp4" "f1" "n1" none none none 0,
        .add "b.mp4" "f2" "n2" none none none 0]).map VideoRecord.id).Nodup :=
  c2_id_assignment.2.2
    [.add "a.mp4" "f1" "n1" none none none 0,
      .add "b.mp4" "f2" "n2" none none none 0]
    (by intro op hop; fin_cases hop <;> rfl)

/-- Looking up a key that occurs in no pair gives `none`. -/
theorem lkp_eq_none_of_not_mem (q : String) :
    ∀ m : List (String × Json), q ∉ m.map Prod.fst → lkp q m = none := by
  intro m
  induction m with
  | nil => intro _; rfl
  | cons kv rest ih =>
    rcases kv with ⟨k2, v2⟩
    intro h
    simp only [List.map_cons, List.mem_cons] at h
    push_neg at h
    simp only [lkp]
    rw [if_neg (fun he => h.1 he.symm), ih h.2]

/-- Lookup after a single Python-dict insertion. -/
theorem lkp_dictIns (m : List (String × Json)) (k : String) (v : Json)
    (q : String) :
    lkp q (dictIns m k v) = if k = q then some v else lkp q m := by
  induction m with
  | nil => simp [dictIns, lkp]
  | cons kv rest ih =>
    rcases kv with ⟨k2, v2⟩
    simp only [dictIns]
    by_cases h2 : k2 = k
    · rw [if_pos h2]
      subst h2
      simp only [lkp]
      by_cases hq : k2 = q
      · rw [if_pos hq, if_pos hq]
      · rw [if_neg hq, if_neg hq, if_neg hq]
    · rw [if_neg h2]
      simp only [lkp]
      by_cases hq : k2 = q
      · rw [if_pos hq, if_neg (fun he => h2 (hq.trans he.symm)), if_pos hq]
      · rw [if_neg hq, ih]
        by_cases hkq : k = q
        · rw [if_pos hkq, if_pos hkq]
        · rw [if_neg hkq, if_neg hkq, if_neg hq]

/-- Lookup after `dict.update(mm)` (`mm` with unique keys, as a Python
dict always has): keys of `mm` win, the rest fall through. -/
theorem lkp_foldl_dictIns (mm : List (String × Json)) :
    ∀ (d : List (String × Json)) (q : String), (mm.map Prod.fst).Nodup →
    lkp q (mm.foldl (fun acc kv => dictIns acc kv.1 kv.2) d) =
      match lkp q mm with
      | some x => some x
      | none => lkp q d := by
  induction mm with
  | nil => intro d q _; rfl
  | cons kv rest ih =>
    intro d q hnd
    rcases kv with ⟨k, v⟩
    simp only [List.map_cons, List.nodup_cons] at hnd
    simp only [List.foldl_cons]
    rw [ih (dictIns d k v) q hnd.2]
    simp only [lkp]
    by_cases hq : k = q
    · subst hq
      rw [lkp_eq_none_of_not_mem k rest hnd.1]
      simp [lkp_dictIns]
    · rw [if_neg hq]
      cases hr : lkp q rest
      · simp [lkp_dictIns, hq]
      · rfl

/-- C8: `update_video` returns true iff a record with the id exists and
returns false leaving the store unchanged otherwise; the first matching
record is rewritten in place (all records before and after it unchanged),
with `display_name`/`description` overwritten exactly when provided, the
identity fields (`id`, `local_path`, `file_id`, `file_name`,
`uploaded_at`) untouched, and `metadata` merged key-wise: keys of the
argument overwrite, all other existing keys are preserved. -/
theorem c8_update_semantics (i : Nat) (dn de : Option String)
    (md : Option (List (String × Json))) :
    (∀ db : List VideoRecord,
      ((updateVideo db i dn de md).2 = true ↔ ∃ v ∈ db, v.id = i))
    ∧ (∀ db : List VideoRecord, (∀ w ∈ db, w.id ≠ i) →
        (updateVideo db i dn de md).1 = db
        ∧ (updateVideo db i dn de md).2 = false)
    ∧ (∀ (pre post : List VideoRecord) (v : VideoRecord),
        (∀ w ∈ pre, w.id ≠ i) → v.id = i →
        (updateVideo (pre ++ v :: post) i dn de md).1 =
          pre ++ applyKwargs v dn de md :: post
        ∧ (updateVideo (pre ++ v :: post) i dn de md).2 = true)
    ∧ (∀ v : VideoRecord,
        (applyKwargs v dn de md).id = v.id
        ∧ (applyKwargs v dn de md).local_path = v.local_path
        ∧ (applyKwargs v dn de md).file_id = v.file_id
        ∧ (applyKwargs v dn de md).file_name = v.file_name
        ∧ (applyKwargs v dn de md).uploaded_at = v.uploaded_at
        ∧ (dn = none → (applyKwargs v dn de md).display_name = v.display_name)
        ∧ (∀ s, dn = some s → (applyKwargs v dn de md).display_name = s)
        ∧ (de = none → (applyKwargs v dn de md).description = v.description)
        ∧ (∀ s, de = some s → (applyKwargs v dn de md).description = s)
        ∧ (md = none → (applyKwargs v dn de md).metadata = v.metadata))
    ∧ (∀ (v : VideoRecord) (m : List (String × Json)) (q : String),
        md = some m → (m.map Prod.fst).Nodup →
        lkp q (applyKwargs v dn de md).metadata =
          match lkp q m with
          | some x => some x
          | none => lkp q v.metadata) := by
  refine ⟨?_, ?_, ?_, ?_, ?_⟩
  · intro db
    induction db with
    | nil => simp [updateVideo]
    | cons v rest ih =>
      by_cases h : v.id = i
      · simp [updateVideo, h]
      · simp only [updateVideo, if_neg h]
        rw [ih]
        simp [h]
  · intro db
    induction db with
    | nil => intro _; exact ⟨rfl, rfl⟩
    | cons v rest ih =>
      intro h
      have hv : v.id ≠ i := h v (List.mem_cons_self _ _)
      have hr := ih fun w hw => h w (List.mem_cons_of_mem _ hw)
      simp only [updateVideo, if_neg hv]
      exact ⟨by rw [hr.1], hr.2⟩
  · intro pre
    induction pre with
    | nil =>
      intro post v _ hv
      simp [updateVideo, hv]
    | cons w pre2 ih =>
      intro post v h hv
      have hw : w.id ≠ i := h w (List.mem_cons_self _ _)
      have hr := ih post v (fun u hu => h u (List.mem_cons_of_mem _ hu)) hv
      simp only [List.cons_append, updateVideo, if_neg hw]
      exact ⟨congrArg (fun l => w :: l) hr.1, hr.2⟩
  · intro v
    cases dn <;> cases de <;> cases md <;>
      refine ⟨rfl, rfl, rfl, rfl, rfl, ?_, ?_, ?_, ?_, ?_⟩ <;>
        simp [applyKwargs]
  · intro v m q hmd hnd
    subst hmd
    have hmeta : (applyKwargs v dn de (some m)).metadata =
        m.foldl (fun acc kv => dictIns acc kv.1 kv.2) v.metadata := by
      cases dn <;> cases de <;> rfl
    rw [hmeta, lkp_foldl_dictIns m v.metadata q hnd]

/-- C8 witness: a concrete one-record store updated in place (display
name overwritten, metadata merged), and the merge lookup favouring the
argument's key while preserving the others. -/
theorem c8_update_semantics_witness :
    (updateVideo [⟨1, "d", "p", "f", "fn", "", 0, [("a", .num "1")]⟩] 1
        (some "nd") none (some [("a", .num "9"), ("b", .num "2")])).1 =
      [] ++ applyKwargs ⟨1, "d", "p", "f", "fn", "", 0, [("a", .num "1")]⟩
          (some "nd") none (some [("a", .num "9"), ("b", .num "2")]) :: []
    ∧ lkp "a" (applyKwargs ⟨1, "d", "p", "f", "fn", "", 0, [("a", .num "1")]⟩
        (some "nd") none (some [("a", .num "9"), ("b", .num "2")])).metadata =
      match lkp "a" [("a", Json.num "9"), ("b", Json.num "2")] with
      | some x => some x
      | none => lkp "a" [("a", Json.num "1")] :=
  ⟨((c8_update_semantics 1 (some "nd") none
        (some [("a", .num "9"), ("b", .num "2")])).2.2.1 [] []
      ⟨1, "d", "p", "f", "fn", "", 0, [("a", .num "1")]⟩
      (by intro w hw; cases hw) rfl).1,
    (c8_update_semantics 1 (some "nd") none
        (some [("a", .num "9"), ("b", .num "2")])).2.2.2.2
      ⟨1, "d", "p", "f", "fn", "", 0, [("a", .num "1")]⟩
      [("a", .num "9"), ("b", .num "2")] "a" rfl (by simp)⟩

/-- The `cleanup_expired` loop, run from any accumulator whose kept list
is disjoint from the (unique) ids still to process, appends the ids of
the to-delete records to the first component and the ids of all other
records to the second, keeping record order. -/
theorem cleanup_foldl_spec (nowT : Int)
    (client : Option (VideoRecord → Bool)) :
    ∀ (db : List VideoRecord) (td kp : List Nat),
    (∀ v ∈ db, v.id ∉ kp) → ((db.map VideoRecord.id).Nodup) →
    db.foldl (cleanupStep nowT client) (td, kp) =
      (td ++ (db.filter (shouldDel nowT client)).map VideoRecord.id,
        kp ++ (db.filter (fun v => !shouldDel nowT client v)).map
          VideoRecord.id) := by
  intro db
  induction db with
  | nil => intro td kp _ _; simp
  | cons v rest ih =>
    intro td kp hin hnd
    simp only [List.map_cons, List.nodup_cons] at hnd
    have hrest_in : ∀ w ∈ rest, w.id ∉ kp :=
      fun w hw => hin w (List.mem_cons_of_mem _ hw)
    have hrest_ne : ∀ w ∈ rest, w.id ≠ v.id := by
      intro w hw he
      exact hnd.1 (he ▸ List.mem_map_of_mem VideoRecord.id hw)
    simp only [List.foldl_cons]
    by_cases hexp : isExpired nowT v = true
    · cases client with
      | none =>
        have hstep : cleanupStep nowT none (td, kp) v = (td ++ [v.id], kp) := by
          simp [cleanupStep, hexp]
        have hsd : shouldDel nowT none v = true := by simp [shouldDel, hexp]
        rw [hstep, ih (td ++ [v.id]) kp hrest_in hnd.2]
        simp [hsd, List.filter_cons, List.append_assoc]
      | some f =>
        by_cases hf : f v = true
        · have hstep : cleanupStep nowT (some f) (td, kp) v =
              (td, kp ++ [v.id]) := by
            simp [cleanupStep, hexp, hf]
          have hsd : shouldDel nowT (some f) v = false := by
            simp [shouldDel, hexp, hf]
          have hkp2 : ∀ w ∈ rest, w.id ∉ kp ++ [v.id] := by
            intro w hw
            simp only [List.mem_append, List.mem_singleton]
            push_neg
            exact ⟨hrest_in w hw, hrest_ne w hw⟩
          rw [hstep, ih td (kp ++ [v.id]) hkp2 hnd.2]
          simp [hsd, List.filter_cons, List.append_assoc]
        · have hstep : cleanupStep nowT (some f) (td, kp) v =
              (td ++ [v.id], kp) := by
            simp [cleanupStep, hexp, hf]
          have hsd : shouldDel nowT (some f) v = true := by
            simp [shouldDel, hexp, hf]
          rw [hstep, ih (td ++ [v.id]) kp hrest_in hnd.2]
          simp [hsd, List.filter_cons, List.append_assoc]
    · have hmem : v.id ∉ kp := hin v (List.mem_cons_self _ _)
      have hstep : cleanupStep nowT client (td, kp) v = (td, kp ++ [v.id]) := by
        simp [cleanupStep, hexp, hmem]
      have hsd : shouldDel nowT client v = false := by simp [shouldDel, hexp]
      have hkp2 : ∀ w ∈ rest, w.id ∉ kp ++ [v.id] := by
        intro w hw
        simp only [List.mem_append, List.mem_singleton]
        push_neg
        exact ⟨hrest_in w hw, hrest_ne w hw⟩
      rw [hstep, ih td (kp ++ [v.id]) hkp2 hnd.2]
      simp [hsd, List.filter_cons, List.append_assoc]

/-- The deleted-id list is the first component of the loop fold. -/
theorem cleanupExpired_deleted (nowT : Int)
    (client : Option (VideoRecord → Bool)) (db : List VideoRecord) :
    (cleanupExpired nowT client db).deleted =
      (db.foldl (cleanupStep nowT client) ([], [])).1 := by
  simp only [cleanupExpired]
  split <;> rfl

/-- The kept-id list is the second component of the loop fold. -/
theorem cleanupExpired_kept (nowT : Int)
    (client : Option (VideoRecord → Bool)) (db : List VideoRecord) :
    (cleanupExpired nowT client db).kept =
      (db.foldl (cleanupStep nowT client) ([], [])).2 := by
  simp only [cleanupExpired]
  split <;> rfl

/-- `_save_db` runs exactly once when something is deleted, not at all
otherwise. -/
theorem cleanupExpired_saves (nowT : Int)
    (client : Option (VideoRecord → Bool)) (db : List VideoRecord) :
    (cleanupExpired nowT client db).saves =
      if (cleanupExpired nowT client db).deleted = [] then 0 else 1 := by
  rw [cleanupExpired_deleted]
  simp only [cleanupExpired]
  split <;> simp_all

/-- The resulting store always equals the load filtered by the full
deletion set (when nothing is deleted the filter keeps everything). -/
theorem cleanupExpired_store_filter (nowT : Int)
    (client : Option (VideoRecord → Bool)) (db : List VideoRecord) :
    (cleanupExpired nowT client db).store =
      db.filter (fun v => v.id ∉ (cleanupExpired nowT client db).deleted) := by
  rw [cleanupExpired_deleted]
  simp only [cleanupExpired]
  split
  · rename_i hempty
    rw [hempty]
    simp
  · rfl

/-- With unique ids, the deleted and kept id lists are the ids of the
to-delete records and of all other records, in record order. -/
theorem cleanupExpired_lists (nowT : Int)
    (client : Option (VideoRecord → Bool)) (db : List VideoRecord)
    (h : (db.map VideoRecord.id).Nodup) :
    (cleanupExpired nowT client db).deleted =
      (db.filter (shouldDel nowT client)).map VideoRecord.id
    ∧ (cleanupExpired nowT client db).kept =
      (db.filter (fun v => !shouldDel nowT client v)).map VideoRecord.id := by
  have hspec := cleanup_foldl_spec nowT client db [] [] (by simp) h
  rw [cleanupExpired_deleted, cleanupExpired_kept, hspec]
  simp

/-- With unique ids, an id of a stored record is in the deleted list iff
that record was marked for deletion. -/
theorem mem_deleted_iff (nowT : Int)
    (client : Option (VideoRecord → Bool)) (db : List VideoRecord)
    (h : (db.map VideoRecord.id).Nodup) (v : VideoRecord) (hv : v ∈ db) :
    v.id ∈ (cleanupExpired nowT client db).deleted ↔
      shouldDel nowT client v = true := by
  rw [(cleanupExpired_lists nowT client db h).1]
  constructor
  · intro hm
    rcases List.mem_map.mp hm with ⟨w, hw, hid⟩
    rcases List.mem_filter.mp hw with ⟨hwdb, hwsd⟩
    have := List.inj_on_of_nodup_map h hwdb hv hid
    exact this ▸ hwsd
  · intro hsd
    exact List.mem_map_of_mem VideoRecord.id
      (List.mem_filter.mpr ⟨hv, hsd⟩)

/-- Without a client a record is marked iff locally expired. -/
theorem shouldDel_none (nowT : Int) (v : VideoRecord) :
    shouldDel nowT none v = isExpired nowT v := by
  by_cases h : isExpired nowT v = true <;> simp [shouldDel, h]

/-- With a client a record is marked iff locally expired and reported
gone by the remote check. -/
theorem shouldDel_some (nowT : Int) (f : VideoRecord → Bool)
    (v : VideoRecord) :
    shouldDel nowT (some f) v = (isExpired nowT v && !f v) := by
  by_cases h : isExpired nowT v = true <;> simp [shouldDel, h]

/-- C1 counterexample: the claim fails as stated.  (1) On a reachable
ledger state with two records sharing id 2 — the first expired with the
remote file gone, the second expired with the remote file still active —
the second record's id lands in `kept` AND in `deleted`, and the record
is removed from the store rather than retained, because deletion filters
by id.  (2) A call that deletes nothing does not persist the store at
all, rather than persisting once. -/
theorem c1_cleanup_expired_counterexample :
    (cleanupExpired (100 * 3600)
        (some fun v => v.file_name == "keep")
        [⟨2, "d", "p", "f", "gone", "", 0, []⟩,
          ⟨2, "d", "p", "f", "keep", "", 0, []⟩]).deleted = [2]
    ∧ (cleanupExpired (100 * 3600)
        (some fun v => v.file_name == "keep")
        [⟨2, "d", "p", "f", "gone", "", 0, []⟩,
          ⟨2, "d", "p", "f", "keep", "", 0, []⟩]).kept = [2]
    ∧ (cleanupExpired (100 * 3600)
        (some fun v => v.file_name == "keep")
        [⟨2, "d", "p", "f", "gone", "", 0, []⟩,
          ⟨2, "d", "p", "f", "keep", "", 0, []⟩]).store = []
    ∧ isExpired (100 * 3600) ⟨2, "d", "p", "f", "keep", "", 0, []⟩ = true
    ∧ (fun v : VideoRecord => v.file_name == "keep")
        ⟨2, "d", "p", "f", "keep", "", 0, []⟩ = true
    ∧ (cleanupExpired 0 none [⟨1, "d", "p", "f", "a", "", 0, []⟩]).saves = 0 :=
  ⟨rfl, rfl, rfl, rfl, rfl, rfl⟩

/-- C1 (amended): for every ledger state with unique record ids: with no
client exactly the locally-expired records are deleted (their ids
returned in order) and every non-expired record survives in the store;
with a client an expired record is deleted iff the remote check reports
it gone, and an expired record whose remote file still exists keeps its
id in `kept`, stays out of `deleted` and stays in the store; the store
is persisted at most once — exactly once when the deletion set is
nonempty, not at all when it is empty — and always equals the original
records filtered by the full deletion set. -/
theorem c1_cleanup_expired_spec (nowT : Int) (db : List VideoRecord)
    (h : (db.map VideoRecord.id).Nodup) :
    ((cleanupExpired nowT none db).deleted =
        (db.filter (isExpired nowT)).map VideoRecord.id
      ∧ (cleanupExpired nowT none db).store =
          db.filter (fun v => !isExpired nowT v))
    ∧ (∀ f : VideoRecord → Bool,
        (cleanupExpired nowT (some f) db).deleted =
          (db.filter (fun v => isExpired nowT v && !f v)).map VideoRecord.id
        ∧ ∀ v ∈ db, isExpired nowT v = true → f v = true →
            v.id ∈ (cleanupExpired nowT (some f) db).kept
            ∧ v.id ∉ (cleanupExpired nowT (some f) db).deleted
            ∧ v ∈ (cleanupExpired nowT (some f) db).store)
    ∧ (∀ client : Option (VideoRecord → Bool),
        (cleanupExpired nowT client db).saves =
          (if (cleanupExpired nowT client db).deleted = [] then 0 else 1)
        ∧ (cleanupExpired nowT client db).store =
            db.filter (fun v => v.id ∉ (cleanupExpired nowT client db).deleted)) := by
  refine ⟨⟨?_, ?_⟩, fun f => ⟨?_, fun v hv hexp hf => ?_⟩,
    fun client => ⟨cleanupExpired_saves nowT client db,
      cleanupExpired_store_filter nowT client db⟩⟩
  · rw [(cleanupExpired_lists nowT none db h).1,
      List.filter_congr fun v _ => shouldDel_none nowT v]
  · rw [cleanupExpired_store_filter]
    refine List.filter_congr fun v hv => ?_
    have hiff := mem_deleted_iff nowT none db h v hv
    rw [shouldDel_none] at hiff
    by_cases he : isExpired nowT v = true
    · simp [hiff, he]
    · simp only [Bool.not_eq_true] at he
      simp [he]
      intro hmem
      rw [hiff] at hmem
      simp [he] at hmem
  · rw [(cleanupExpired_lists nowT (some f) db h).1,
      List.filter_congr fun v _ => shouldDel_some nowT f v]
  · have hsd : shouldDel nowT (some f) v = false := by
      rw [shouldDel_some, hexp, hf]
      rfl
    have hnotdel : v.id ∉ (cleanupExpired nowT (some f) db).deleted := by
      intro hmem
      rw [mem_deleted_iff nowT (some f) db h v hv] at hmem
      rw [hsd] at hmem
      cases hmem
    refine ⟨?_, hnotdel, ?_⟩
    · rw [(cleanupExpired_lists nowT (some f) db h).2]
      exact List.mem_map_of_mem VideoRecord.id
        (List.mem_filter.mpr ⟨hv, by rw [hsd]; rfl⟩)
    · rw [cleanupExpired_store_filter]
      exact List.mem_filter.mpr ⟨hv, by simpa using hnotdel⟩

/-- C1 witness: the no-client part applied to a concrete two-record
store (one expired, one fresh): the expired id is deleted and the fresh
record survives. -/
theorem c1_cleanup_expired_spec_witness :
    (cleanupExpired (100 * 3600) none
        [⟨1, "d", "p", "f", "a", "", 0, []⟩,
          ⟨2, "d", "p", "f", "b", "", 99 * 3600, []⟩]).deleted =
      (([⟨1, "d", "p", "f", "a", "", 0, []⟩,
          ⟨2, "d", "p", "f", "b", "", 99 * 3600, []⟩] :
        List VideoRecord).filter (isExpired (100 * 3600))).map VideoRecord.id
    ∧ (cleanupExpired (100 * 3600) none
        [⟨1, "d", "p", "f", "a", "", 0, []⟩,
          ⟨2, "d", "p", "f", "b", "", 99 * 3600, []⟩]).store =
      ([⟨1, "d", "p", "f", "a", "", 0, []⟩,
          ⟨2, "d", "p", "f", "b", "", 99 * 3600, []⟩] :
        List VideoRecord).filter (fun v => !isExpired (100 * 3600) v) :=
  (c1_cleanup_expired_spec (100 * 3600)
      [⟨1, "d", "p", "f", "a", "", 0, []⟩,
        ⟨2, "d", "p", "f", "b", "", 99 * 3600, []⟩] (by decide)).1

/-- C10: for every ledger state with unique record ids, `deleted` and
`kept` together enumerate the ids of the records present before the call,
each exactly once: the concatenation is a duplicate-free permutation of
the stored ids, and every record that is not deleted — expired or not —
appears in `kept` exactly once. -/
theorem c10_deleted_kept_partition (nowT : Int)
    (client : Option (VideoRecord → Bool)) (db : List VideoRecord)
    (h : (db.map VideoRecord.id).Nodup) :
    ((cleanupExpired nowT client db).deleted ++
        (cleanupExpired nowT client db).kept).Perm (db.map VideoRecord.id)
    ∧ ((cleanupExpired nowT client db).deleted ++
        (cleanupExpired nowT client db).kept).Nodup
    ∧ ∀ v ∈ db, v.id ∉ (cleanupExpired nowT client db).deleted →
        ((cleanupExpired nowT client db).kept).count v.id = 1 := by
  have hl := cleanupExpired_lists nowT client db h
  have hperm : ((cleanupExpired nowT client db).deleted ++
      (cleanupExpired nowT client db).kept).Perm (db.map VideoRecord.id) := by
    rw [hl.1, hl.2, ← List.map_append]
    exact (List.filter_append_perm (shouldDel nowT client) db).map VideoRecord.id
  have hnd : ((cleanupExpired nowT client db).deleted ++
      (cleanupExpired nowT client db).kept).Nodup :=
    (List.Perm.nodup_iff hperm).mpr h
  refine ⟨hperm, hnd, fun v hv hvd => ?_⟩
  have hkeptnd : ((cleanupExpired nowT client db).kept).Nodup :=
    hnd.of_append_right
  have hsd : shouldDel nowT client v = false := by
    by_cases hb : shouldDel nowT client v = true
    · exact absurd ((mem_deleted_iff nowT client db h v hv).mpr hb) hvd
    · simpa using hb
  have hmem : v.id ∈ (cleanupExpired nowT client db).kept := by
    rw [hl.2]
    exact List.mem_map_of_mem VideoRecord.id
      (List.mem_filter.mpr ⟨hv, by rw [hsd]; rfl⟩)
  exact List.count_eq_one_of_mem hkeptnd hmem

/-- C10 witness: the partition on a concrete mixed store (one expired
record deleted, one expired-but-remote-active and one fresh record kept). -/
theorem c10_deleted_kept_partition_witness :
    ((cleanupExpired (100 * 3600) (some fun v => v.file_name == "keep")
        [⟨1, "d", "p", "f", "gone", "", 0, []⟩,
          ⟨2, "d", "p", "f", "keep", "", 0, []⟩,
          ⟨3, "d", "p", "f", "c", "", 99 * 3600, []⟩]).deleted ++
      (cleanupExpired (100 * 3600) (some fun v => v.file_name == "keep")
        [⟨1, "d", "p", "f", "gone", "", 0, []⟩,
          ⟨2, "d", "p", "f", "keep", "", 0, []⟩,
          ⟨3, "d", "p", "f", "c", "", 99 * 3600, []⟩]).kept).Perm
      (([⟨1, "d", "p", "f", "gone", "", 0, []⟩,
          ⟨2, "d", "p", "f", "keep", "", 0, []⟩,
          ⟨3, "d", "p", "f", "c", "", 99 * 3600, []⟩] :
        List VideoRecord).map VideoRecord.id)
    ∧ ((cleanupExpired (100 * 3600) (some fun v => v.file_name == "keep")
        [⟨1, "d", "p", "f", "gone", "", 0, []⟩,
          ⟨2, "d", "p", "f", "keep", "", 0, []⟩,
          ⟨3, "d", "p", "f", "c", "", 99 * 3600, []⟩]).deleted ++
      (cleanupExpired (100 * 3600) (some fun v => v.file_name == "keep")
        [⟨1, "d", "p", "f", "gone", "", 0, []⟩,
          ⟨2, "d", "p", "f", "keep", "", 0, []⟩,
          ⟨3, "d", "p", "f", "c", "", 99 * 3600, []⟩]).kept).Nodup
    ∧ ∀ v ∈ ([⟨1, "d", "p", "f", "gone", "", 0, []⟩,
          ⟨2, "d", "p", "f", "keep", "", 0, []⟩,
          ⟨3, "d", "p", "f", "c", "", 99 * 3600, []⟩] : List VideoRecord),
        v.id ∉ (cleanupExpired (100 * 3600)
            (some fun v => v.file_name == "keep")
            [⟨1, "d", "p", "f", "gone", "", 0, []⟩,
              ⟨2, "d", "p", "f", "keep", "", 0, []⟩,
              ⟨3, "d", "p", "f", "c", "", 99 * 3600, []⟩]).deleted →
          ((cleanupExpired (100 * 3600) (some fun v => v.file_name == "keep")
            [⟨1, "d", "p", "f", "gone", "", 0, []⟩,
              ⟨2, "d", "p", "f", "keep", "", 0, []⟩,
              ⟨3, "d", "p", "f", "c", "", 99 * 3600, []⟩]).kept).count v.id = 1 :=
  c10_deleted_kept_partition (100 * 3600) (some fun v => v.file_name == "keep")
    [⟨1, "d", "p", "f", "gone", "", 0, []⟩,
      ⟨2, "d", "p", "f", "keep", "", 0, []⟩,
      ⟨3, "d", "p", "f", "c", "", 99 * 3600, []⟩] (by decide)

/-- An element with the three required keys maps to exactly `segOf` of it
(the description key defaulting to the empty string). -/
theorem mkSegment_eq_segOf (e : Json) (h : objHasKeys e = true) :
    mkSegment e = .ok (segOf e) := by
  cases e with
  | obj kvs =>
    simp only [objHasKeys, Bool.and_eq_true, Option.isSome_iff_exists] at h
    rcases h with ⟨⟨⟨x, h1⟩, ⟨y, h2⟩⟩, ⟨z, h3⟩⟩
    simp only [mkSegment, pySubscript, pyGetDefault, segOf, h1, h2, h3]
    cases h4 : lkp "description" kvs <;> simp [h4]
  | null => cases h
  | bool b => cases h
  | num s => cases h
  | str s => cases h
  | arr xs => cases h

/-- An object missing one of the required keys makes the comprehension
body raise `KeyError` on that key. -/
theorem mkSegment_missing_key (kvs : List (String × Json))
    (h : objHasKeys (.obj kvs) = false) :
    ∃ k, mkSegment (.obj kvs) = .error (.keyError k)
      ∧ (k = "start_time" ∨ k = "end_time" ∨ k = "activity") := by
  simp only [objHasKeys, Bool.and_eq_true, not_and, Bool.not_eq_true] at h
  cases h1 : lkp "start_time" kvs with
  | none =>
    refine ⟨"start_time", ?_, Or.inl rfl⟩
    simp only [mkSegment, pySubscript, h1]
  | some x =>
    cases h2 : lkp "end_time" kvs with
    | none =>
      refine ⟨"end_time", ?_, Or.inr (Or.inl rfl)⟩
      simp only [mkSegment, pySubscript, h1, h2]
    | some y =>
      cases h3 : lkp "activity" kvs with
      | none =>
        refine ⟨"activity", ?_, Or.inr (Or.inr rfl)⟩
        simp only [mkSegment, pySubscript, h1, h2, h3]
      | some z =>
        rw [h1, h2, h3] at h
        simp at h

/-- The comprehension body succeeds exactly on objects with the required
keys. -/
theorem mkSegment_ok_iff (e : Json) :
    (∃ s, mkSegment e = .ok s) ↔ objHasKeys e = true := by
  constructor
  · rintro ⟨s, hs⟩
    cases e with
    | obj kvs =>
      by_cases h : objHasKeys (.obj kvs) = true
      · exact h
      · rcases mkSegment_missing_key kvs (by simpa using h) with ⟨k, hk, _⟩
        rw [hk] at hs
        cases hs
    | null => cases hs
    | bool b => cases hs
    | num s2 => cases hs
    | str s2 => cases hs
    | arr xs => cases hs
  · intro h
    exact ⟨segOf e, mkSegment_eq_segOf e h⟩

/-- The comprehension over a list of all-good elements returns `segOf`
of each, in order. -/
theorem mapSegments_all_ok (xs : List Json)
    (h : ∀ e ∈ xs, objHasKeys e = true) :
    mapSegments xs = .ok (xs.map segOf) := by
  induction xs with
  | nil => rfl
  | cons e rest ih =>
    simp only [mapSegments,
      mkSegment_eq_segOf e (h e (List.mem_cons_self _ _)),
      ih fun w hw => h w (List.mem_cons_of_mem _ hw), List.map_cons]

/-- The comprehension succeeds iff every element is an object with the
required keys. -/
theorem mapSegments_ok_iff (xs : List Json) :
    (∃ segs, mapSegments xs = .ok segs) ↔ ∀ e ∈ xs, objHasKeys e = true := by
  induction xs with
  | nil => simp [mapSegments]
  | cons e rest ih =>
    constructor
    · rintro ⟨segs, hs⟩
      simp only [mapSegments] at hs
      cases hm : mkSegment e with
      | error ex => rw [hm] at hs; cases hs
      | ok s =>
        rw [hm] at hs
        cases hr : mapSegments rest with
        | error ex => rw [hr] at hs; cases hs
        | ok ss =>
          intro w hw
          rcases List.mem_cons.mp hw with hw | hw
          · exact hw ▸ (mkSegment_ok_iff e).mp ⟨s, hm⟩
          · exact (ih.mp ⟨ss, hr⟩) w hw
    · intro h
      exact ⟨(e :: rest).map segOf, mapSegments_all_ok _ h⟩

/-- An all-objects list with some element missing a required key makes
the comprehension raise `KeyError`. -/
theorem mapSegments_missing_key (xs : List Json)
    (hobj : ∀ e ∈ xs, ∃ kvs, e = Json.obj kvs)
    (hbad : ∃ e ∈ xs, objHasKeys e = false) :
    ∃ k, mapSegments xs = .error (.keyError k) := by
  induction xs with
  | nil => simp at hbad
  | cons e rest ih =>
    rcases hobj e (List.mem_cons_self _ _) with ⟨kvs, hkvs⟩
    subst hkvs
    by_cases hk : objHasKeys (.obj kvs) = true
    · rcases hbad with ⟨w, hw, hwbad⟩
      rcases List.mem_cons.mp hw with hw | hw
      · subst hw; rw [hk] at hwbad; cases hwbad
      · rcases ih (fun w2 hw2 => hobj w2 (List.mem_cons_of_mem _ hw2))
          ⟨w, hw, hwbad⟩ with ⟨k, hkk⟩
        refine ⟨k, ?_⟩
        simp only [mapSegments, mkSegment_eq_segOf _ hk, hkk]
    · rcases mkSegment_missing_key kvs (by simpa using hk) with ⟨k, hkk, _⟩
      refine ⟨k, ?_⟩
      simp only [mapSegments, hkk]

/-- `extractSegments` succeeds exactly on arrays of objects with the
required keys — and on the two degenerate iterables, the empty object
and the empty string, which yield no elements to subscript. -/
theorem extractSegments_ok_iff (v : Json) :
    (∃ segs, extractSegments v = .ok segs) ↔
      (isArrObjsWithKeys v = true ∨ v = .obj [] ∨ v = .str "") := by
  cases v with
  | null => simp [extractSegments, pyIterate, isArrObjsWithKeys]
  | bool b => simp [extractSegments, pyIterate, isArrObjsWithKeys]
  | num s => simp [extractSegments, pyIterate, isArrObjsWithKeys]
  | str s =>
    cases s with
    | mk d =>
      cases d with
      | nil =>
        constructor
        · intro _
          right; right; rfl
        · intro _
          exact ⟨[], rfl⟩
      | cons c cs =>
        constructor
        · rintro ⟨segs, hs⟩
          simp only [extractSegments, pyIterate, List.map_cons, mapSegments,
            mkSegment, pySubscript] at hs
          cases hs
        · intro h
          rcases h with h | h | h
          · exact Bool.noConfusion h
          · cases h
          · injection h with h2
            cases congrArg String.data h2
  | obj kvs =>
    cases kvs with
    | nil =>
      constructor
      · intro _
        right; left; rfl
      · intro _
        exact ⟨[], rfl⟩
    | cons kv rest =>
      constructor
      · rintro ⟨segs, hs⟩
        simp only [extractSegments, pyIterate, List.map_cons, mapSegments,
          mkSegment, pySubscript] at hs
        cases hs
      · intro h
        rcases h with h | h | h
        · exact Bool.noConfusion h
        · cases h
        · cases h
  | arr xs =>
    have harr : extractSegments (.arr xs) = mapSegments xs := rfl
    constructor
    · rintro ⟨segs, hs⟩
      left
      simp only [isArrObjsWithKeys, List.all_eq_true]
      exact fun e he =>
        (mapSegments_ok_iff xs).mp ⟨segs, harr ▸ hs⟩ e he
    · intro h
      rcases h with h | h | h
      · simp only [isArrObjsWithKeys, List.all_eq_true] at h
        exact ⟨xs.map segOf, harr ▸ mapSegments_all_ok xs h⟩
      · cases h
      · cases h

/-- C3 counterexample: the claim fails as stated — the reply text
consisting of an empty JSON object is valid JSON and not an array of
objects, yet the parser succeeds with zero segments instead of failing
with `MalformedResponseError`. -/
theorem c3_response_parser_counterexample :
    jsonLoads (respText "\x7b\x7d".data) = some (.obj [])
    ∧ parseResponse "\x7b\x7d".data = .ok []
    ∧ isArrObjsWithKeys (.obj []) = false :=
  ⟨rfl, rfl, rfl⟩

/-- C3 (amended): after fence-stripping, text that is not valid JSON
fails with `MalformedResponseError` (`json.JSONDecodeError`) and valid
JSON is handed to the comprehension; the comprehension succeeds iff the
decoded value is an array of objects each containing `start_time`,
`end_time` and `activity` — or one of the two degenerate iterables, an
empty object or an empty string, which vacuously yield zero segments —
and on such an array it yields one segment per element in array order
with a missing `description` defaulting to the empty string; an object
element missing a required key fails with `MissingFieldError`
(`KeyError` on that key), also through the whole comprehension when all
elements are objects. -/
theorem c3_response_parser_spec :
    (∀ raw : List Char, jsonLoads (respText raw) = none →
      parseResponse raw = .error .jsonDecodeError)
    ∧ (∀ (raw : List Char) (v : Json), jsonLoads (respText raw) = some v →
        parseResponse raw = extractSegments v)
    ∧ (∀ v : Json, (∃ segs, extractSegments v = .ok segs) ↔
        (isArrObjsWithKeys v = true ∨ v = .obj [] ∨ v = .str ""))
    ∧ (∀ xs : List Json, isArrObjsWithKeys (.arr xs) = true →
        extractSegments (.arr xs) = .ok (xs.map segOf))
    ∧ (∀ kvs : List (String × Json), objHasKeys (.obj kvs) = false →
        ∃ k, mkSegment (.obj kvs) = .error (.keyError k)
          ∧ (k = "start_time" ∨ k = "end_time" ∨ k = "activity"))
    ∧ (∀ xs : List Json, (∀ e ∈ xs, ∃ kvs, e = Json.obj kvs) →
        (∃ e ∈ xs, objHasKeys e = false) →
        ∃ k, extractSegments (.arr xs) = .error (.keyError k)) := by
  refine ⟨fun raw h => ?_, fun raw v h => ?_, extractSegments_ok_iff, ?_,
    mkSegment_missing_key, mapSegments_missing_key⟩
  · simp only [parseResponse, h]
  · simp only [parseResponse, h]
  · intro xs h
    simp only [isArrObjsWithKeys, List.all_eq_true] at h
    exact mapSegments_all_ok xs h

/-- C3 witness: non-JSON text fails with the decode error; a singleton
array of a complete object (no description) yields exactly its segment
with empty description; an object missing `activity` raises `KeyError`. -/
theorem c3_response_parser_spec_witness :
    parseResponse "x".data = .error .jsonDecodeError
    ∧ extractSegments
        (.arr [.obj [("start_time", .str "00:00"), ("end_time", .str "00:10"),
          ("activity", .str "Open door")]]) =
      .ok ([Json.obj [("start_time", .str "00:00"), ("end_time", .str "00:10"),
          ("activity", .str "Open door")]].map segOf)
    ∧ ∃ k, mkSegment (.obj [("start_time", .str "a"), ("end_time", .str "b")]) =
        .error (.keyError k)
        ∧ (k = "start_time" ∨ k = "end_time" ∨ k = "activity") :=
  ⟨c3_response_parser_spec.1 "x".data rfl,
    c3_response_parser_spec.2.2.2.1
      [.obj [("start_time", .str "00:00"), ("end_time", .str "00:10"),
        ("activity", .str "Open door")]] rfl,
    c3_response_parser_spec.2.2.2.2.1
      [("start_time", .str "a"), ("end_time", .str "b")] rfl⟩

/-- A list starts with itself followed by anything. -/
theorem lSW_self_append (s r : List Char) : lStartsWith s (s ++ r) = true := by
  induction s with
  | nil => rfl
  | cons a s2 ih => simp [lStartsWith, ih]

/-- A prefix is no longer than the text. -/
theorem lSW_le_length (p : List Char) :
    ∀ s : List Char, lStartsWith p s = true → p.length ≤ s.length := by
  induction p with
  | nil => intro s _; simp
  | cons a p2 ih =>
    intro s h
    cases s with
    | nil => cases h
    | cons b s2 =>
      simp only [lStartsWith, Bool.and_eq_true] at h
      simpa using ih s2 h.2

/-- If a concatenation is a prefix, so is its first part. -/
theorem lSW_mono (p q : List Char) :
    ∀ s : List Char, lStartsWith (p ++ q) s = true →
      lStartsWith p s = true := by
  induction p with
  | nil => intro s _; rfl
  | cons a p2 ih =>
    intro s h
    cases s with
    | nil => cases h
    | cons b s2 =>
      simp only [List.cons_append, lStartsWith, Bool.and_eq_true] at h ⊢
      exact ⟨h.1, ih s2 h.2⟩

/-- Cancelling a common prefix. -/
theorem lSW_append_cancel (p q s : List Char) :
    lStartsWith (p ++ q) (p ++ s) = lStartsWith q s := by
  induction p with
  | nil => rfl
  | cons a p2 ih => simp [lStartsWith, ih]

/-- A prefix of a list is a prefix of any extension. -/
theorem lSW_append_right (p : List Char) :
    ∀ s w : List Char, lStartsWith p s = true →
      lStartsWith p (s ++ w) = true := by
  induction p with
  | nil => intro s w _; rfl
  | cons a p2 ih =>
    intro s w h
    cases s with
    | nil => cases h
    | cons b s2 =>
      simp only [List.cons_append, lStartsWith, Bool.and_eq_true] at h ⊢
      exact ⟨h.1, ih s2 w h.2⟩

/-- No occurrence anywhere iff no occurrence at any suffix. -/
theorem containsSub_eq_false_iff (p : List Char) :
    ∀ s : List Char, containsSub p s = false ↔
      ∀ n, lStartsWith p (s.drop n) = false := by
  intro s
  induction s with
  | nil =>
    simp only [containsSub]
    constructor
    · intro h n
      simpa using h
    · intro h
      simpa using h 0
  | cons c cs ih =>
    simp only [containsSub, Bool.or_eq_false_iff]
    constructor
    · rintro ⟨h1, h2⟩ n
      cases n with
      | zero => exact h1
      | succ m => exact (ih.mp h2) m
    · intro h
      exact ⟨h 0, ih.mpr fun m => h (m + 1)⟩

/-- A prefix occurrence is an occurrence. -/
theorem containsSub_of_lSW (p s : List Char) (h : lStartsWith p s = true) :
    containsSub p s = true := by
  cases s with
  | nil => simpa [containsSub] using h
  | cons c cs => simp [containsSub, h]

/-- Occurrences survive extending the text on the right. -/
theorem containsSub_append_right (p : List Char) :
    ∀ s w : List Char, containsSub p s = true →
      containsSub p (s ++ w) = true := by
  intro s
  induction s with
  | nil =>
    intro w h
    simp only [containsSub] at h
    cases p with
    | nil => exact containsSub_of_lSW [] w rfl
    | cons a p2 => cases h
  | cons c cs ih =>
    intro w h
    simp only [containsSub, Bool.or_eq_true] at h ⊢
    rcases h with h | h
    · exact Or.inl (lSW_append_right p _ w h)
    · exact Or.inr (ih w h)

/-- Occurrences survive extending the text on the left. -/
theorem containsSub_append_left (p : List Char) :
    ∀ u s : List Char, containsSub p s = true →
      containsSub p (u ++ s) = true := by
  intro u
  induction u with
  | nil => intro s h; exact h
  | cons a u2 ih =>
    intro s h
    simp only [List.cons_append, containsSub, Bool.or_eq_true]
    exact Or.inr (ih s h)

/-- `beforeFirst` is the identity when there is no occurrence. -/
theorem beforeFirst_eq_self (p : List Char) :
    ∀ s : List Char, containsSub p s = false → beforeFirst p s = s := by
  intro s
  induction s with
  | nil => intro _; rfl
  | cons c cs ih =>
    intro h
    simp only [containsSub, Bool.or_eq_false_iff] at h
    simp only [beforeFirst, h.1, if_false, ih h.2]
    simp

/-- `beforeFirst` cuts exactly at the first occurrence: if the pattern
starts `ys` and occurs nowhere earlier, everything before `ys` is kept. -/
theorem beforeFirst_cut (p : List Char) (hp : p ≠ []) :
    ∀ (xs ys : List Char), lStartsWith p ys = true →
      (∀ n, n < xs.length → lStartsWith p (xs.drop n ++ ys) = false) →
      beforeFirst p (xs ++ ys) = xs := by
  intro xs
  induction xs with
  | nil =>
    intro ys hy _
    cases ys with
    | nil =>
      cases p with
      | nil => exact absurd rfl hp
      | cons a p2 => cases hy
    | cons b ys2 => simp [beforeFirst, hy]
  | cons x xs2 ih =>
    intro ys hy hno
    have h0 : lStartsWith p ((x :: xs2) ++ ys) = false := by
      simpa using hno 0 (by simp)
    simp only [List.cons_append, beforeFirst]
    rw [if_neg (by simp only [List.cons_append] at h0; simp [h0])]
    exact congrArg (fun l => x :: l)
      (ih ys hy fun n hn => hno (n + 1) (by simpa using Nat.succ_lt_succ hn))

/-- Three backticks cannot start at a position whose third character is
the trailing newline. -/
theorem lSW_tb_of_append_nl (t : List Char)
    (h : lStartsWith tb (t ++ ['\n']) = true) : lStartsWith tb t = true := by
  rcases t with _ | ⟨a, _ | ⟨b, _ | ⟨d, r⟩⟩⟩
  · exact absurd h (by decide)
  · simp [tb, lStartsWith] at h
  · simp [tb, lStartsWith] at h
  · simp only [tb, List.cons_append, lStartsWith, Bool.and_eq_true,
      decide_eq_true_eq] at h ⊢
    exact ⟨h.1, h.2.1, h.2.2.1, trivial⟩

/-- If three backticks start at `t ++ tb`, they either start inside `t`
or `t` is a run of at most two backticks. -/
theorem lSW_tb_of_append_tb (t : List Char)
    (h : lStartsWith tb (t ++ tb) = true) :
    lStartsWith tb t = true ∨ t = [] ∨ t = ['`'] ∨ t = ['`', '`'] := by
  rcases t with _ | ⟨a, _ | ⟨b, _ | ⟨d, r⟩⟩⟩
  · exact Or.inr (Or.inl rfl)
  · simp only [tb, List.cons_append, List.nil_append, lStartsWith,
      Bool.and_eq_true, decide_eq_true_eq] at h
    exact Or.inr (Or.inr (Or.inl (by rw [← h.1])))
  · simp only [tb, List.cons_append, List.nil_append, lStartsWith,
      Bool.and_eq_true, decide_eq_true_eq] at h
    exact Or.inr (Or.inr (Or.inr (by rw [← h.1, ← h.2.1])))
  · left
    simp only [tb, List.cons_append, lStartsWith, Bool.and_eq_true,
      decide_eq_true_eq] at h ⊢
    exact ⟨h.1, h.2.1, h.2.2.1, trivial⟩

/-- Appending a newline creates no new triple-backtick occurrence. -/
theorem containsSub_tb_append_nl (c : List Char)
    (h : containsSub tb c = false) : containsSub tb (c ++ ['\n']) = false := by
  induction c with
  | nil => decide
  | cons a c2 ih =>
    simp only [containsSub, Bool.or_eq_false_iff] at h
    simp only [List.cons_append, containsSub, Bool.or_eq_false_iff]
    refine ⟨?_, ih h.2⟩
    cases hb : lStartsWith tb (a :: (c2 ++ ['\n']))
    · rfl
    · have := lSW_tb_of_append_nl (a :: c2) (by simpa using hb)
      rw [h.1] at this
      cases this

/-- The newline-padded content has no triple backtick when the content
has none. -/
theorem containsSub_tb_pad (c : List Char) (h : containsSub tb c = false) :
    containsSub tb ('\n' :: c ++ ['\n']) = false := by
  simp only [containsSub, Bool.or_eq_false_iff]
  exact ⟨by simp [tb, lStartsWith], containsSub_tb_append_nl c h⟩

/-- No triple backtick starts strictly inside the padded content even
when the closing fence follows it. -/
theorem no_tb_before_fence (c : List Char) (h : containsSub tb c = false) :
    ∀ n, n < ('\n' :: c ++ ['\n']).length →
      lStartsWith tb (('\n' :: c ++ ['\n']).drop n ++ tb) = false := by
  intro n hn
  have hlen : n ≤ ('\n' :: c).length := by
    have h2 : ('\n' :: c ++ ['\n']).length = ('\n' :: c).length + 1 := by
      simp
    omega
  have hdrop : ('\n' :: c ++ ['\n']).drop n =
      ('\n' :: c).drop n ++ ['\n'] := by
    rw [show ('\n' :: c ++ ['\n']) = ('\n' :: c) ++ ['\n'] by simp,
      List.drop_append_eq_append_drop, Nat.sub_eq_zero_of_le hlen,
      List.drop_zero]
  rw [hdrop]
  cases hb : lStartsWith tb ((('\n' :: c).drop n ++ ['\n']) ++ tb)
  · rfl
  · exfalso
    rcases lSW_tb_of_append_tb _ hb with hin | hnil | h1 | h2
    · have hin2 := lSW_tb_of_append_nl _ hin
      have hfalse := (containsSub_eq_false_iff tb ('\n' :: c)).mp
        (by simpa [containsSub, tb, lStartsWith] using h) n
      rw [hfalse] at hin2
      cases hin2
    · simp at hnil
    · rcases hd : ('\n' :: c).drop n with _ | ⟨a, r⟩ <;> rw [hd] at h1 <;>
        simp at h1
    · rcases hd : ('\n' :: c).drop n with _ | ⟨a, r⟩ <;> rw [hd] at h2 <;>
        simp at h2
      rcases hr : r with _ | ⟨a2, r2⟩ <;> rw [hr] at h2 <;> simp at h2

/-- The tagged fence opener never occurs after the real opener when the
content has no triple backtick. -/
theorem no_fj_in_rest (c : List Char) (h : containsSub tb c = false) :
    containsSub fj (('\n' :: c ++ ['\n']) ++ tb) = false := by
  rw [containsSub_eq_false_iff]
  intro n
  by_cases hn : n < ('\n' :: c ++ ['\n']).length
  · rw [List.drop_append_eq_append_drop, Nat.sub_eq_zero_of_le (le_of_lt hn),
      List.drop_zero]
    cases hb : lStartsWith fj (('\n' :: c ++ ['\n']).drop n ++ tb)
    · rfl
    · have htb : lStartsWith tb (('\n' :: c ++ ['\n']).drop n ++ tb) = true := by
        have := lSW_mono tb ['j', 's', 'o', 'n'] _
          (by rw [show tb ++ ['j', 's', 'o', 'n'] = fj from rfl]; exact hb)
        exact this
      rw [no_tb_before_fence c h n hn] at htb
      cases htb
  · rw [List.drop_append_eq_append_drop,
      List.drop_eq_nil_of_le (by omega), List.nil_append]
    cases hb : lStartsWith fj ((tb).drop (n - ('\n' :: c ++ ['\n']).length))
    · rfl
    · exfalso
      have hle := lSW_le_length fj _ hb
      have hlen : ((tb).drop (n - ('\n' :: c ++ ['\n']).length)).length ≤ 3 := by
        rw [List.length_drop]
        simp [tb]
      have : fj.length = 7 := rfl
      omega

/-- `dropWhile` distributes over append: either the first part is all
dropped, or the drop stops inside it. -/
theorem trimStart_append (y z : List Char) :
    trimStart (y ++ z) =
      if trimStart y = [] then trimStart z else trimStart y ++ z := by
  induction y with
  | nil => simp [trimStart]
  | cons a y2 ih =>
    by_cases ha : isPyWS a = true
    · simpa [trimStart, List.dropWhile_cons, ha] using ih
    · simp [trimStart, List.dropWhile_cons, ha]

/-- Stripping ignores the newline padding around the content. -/
theorem pyStrip_pad (c : List Char) :
    pyStrip ('\n' :: c ++ ['\n']) = pyStrip c := by
  have hnl : isPyWS '\n' = true := by decide
  have e1 : trimStart ('\n' :: c ++ ['\n']) = trimStart (c ++ ['\n']) := by
    simp [trimStart, List.dropWhile_cons, hnl]
  show (trimStart (trimStart ('\n' :: c ++ ['\n'])).reverse).reverse =
    pyStrip c
  rw [e1, trimStart_append c ['\n']]
  by_cases hc : trimStart c = []
  · rw [if_pos hc]
    have e5 : trimStart ['\n'] = ([] : List Char) := by decide
    rw [e5]
    show ([] : List Char) = pyStrip c
    show ([] : List Char) = (trimStart (trimStart c).reverse).reverse
    rw [hc]
    rfl
  · rw [if_neg hc, List.reverse_append]
    have e3 : ((['\n'] : List Char).reverse ++ (trimStart c).reverse) =
        '\n' :: (trimStart c).reverse := rfl
    rw [e3]
    have e4 : trimStart ('\n' :: (trimStart c).reverse) =
        trimStart (trimStart c).reverse := by
      simp [trimStart, List.dropWhile_cons, hnl]
    rw [e4]
    rfl

/-- The stripped text is an infix of the original. -/
theorem pyStrip_decomp (c : List Char) :
    ∃ u w : List Char, c = u ++ pyStrip c ++ w := by
  refine ⟨c.takeWhile isPyWS,
    ((trimStart c).reverse.takeWhile isPyWS).reverse, ?_⟩
  have h1 : c = c.takeWhile isPyWS ++ trimStart c :=
    (List.takeWhile_append_dropWhile (p := isPyWS) (l := c)).symm
  have h2 : (trimStart c).reverse =
      (trimStart c).reverse.takeWhile isPyWS ++
        trimStart (trimStart c).reverse :=
    (List.takeWhile_append_dropWhile (p := isPyWS)
      (l := (trimStart c).reverse)).symm
  have h3 : trimStart c =
      pyStrip c ++ ((trimStart c).reverse.takeWhile isPyWS).reverse := by
    have h4 := congrArg List.reverse h2
    rw [List.reverse_reverse, List.reverse_append] at h4
    exact h4
  calc c = c.takeWhile isPyWS ++ trimStart c := h1
    _ = c.takeWhile isPyWS ++
        (pyStrip c ++ ((trimStart c).reverse.takeWhile isPyWS).reverse) := by
        rw [← h3]
    _ = c.takeWhile isPyWS ++ pyStrip c ++
        ((trimStart c).reverse.takeWhile isPyWS).reverse :=
      (List.append_assoc _ _ _).symm

/-- Text with no triple backtick is not fence-stripped. -/
theorem stripFences_id_of_noTB (c : List Char)
    (h : containsSub tb c = false) :
    stripFences (pyStrip c) = pyStrip c := by
  rcases pyStrip_decomp c with ⟨u, w, hc⟩
  have htb : lStartsWith tb (pyStrip c) = false := by
    cases hb : lStartsWith tb (pyStrip c)
    · rfl
    · exfalso
      have h1 := containsSub_of_lSW tb (pyStrip c) hb
      have h2 := containsSub_append_right tb (pyStrip c) w h1
      have h3 := containsSub_append_left tb u _ h2
      rw [← List.append_assoc, ← hc, h] at h3
      cases h3
  have hfj : lStartsWith fj (pyStrip c) = false := by
    cases hb : lStartsWith fj (pyStrip c)
    · rfl
    · have h4 := lSW_mono tb ['j', 's', 'o', 'n'] (pyStrip c)
        (by rw [show tb ++ ['j', 's', 'o', 'n'] = fj from rfl]; exact hb)
      rw [htb] at h4
      cases h4
  simp [stripFences, hfj, htb]

/-- The text a `json`-fenced reply hands to the decoder is the stripped
content, provided the content has no triple backtick. -/
theorem respText_jsonWrap (c : List Char) (h : containsSub tb c = false) :
    respText (jsonWrap c) = pyStrip c := by
  have e1 : trimStart (jsonWrap c) = jsonWrap c := rfl
  have e3 : trimStart ((jsonWrap c).reverse) = (jsonWrap c).reverse := by
    rw [show jsonWrap c = (fj ++ ('\n' :: c ++ ['\n'])) ++ tb from rfl,
      List.reverse_append]
    rfl
  have hw : pyStrip (jsonWrap c) = jsonWrap c := by
    show (trimStart (trimStart (jsonWrap c)).reverse).reverse = jsonWrap c
    rw [e1, e3, List.reverse_reverse]
  have hs : lStartsWith fj (jsonWrap c) = true := rfl
  have e4 : jsonWrap c = fj ++ (('\n' :: c ++ ['\n']) ++ tb) :=
    List.append_assoc _ _ _
  simp only [respText]
  rw [hw]
  simp only [stripFences]
  rw [if_pos hs, e4, List.drop_left,
    beforeFirst_eq_self fj _ (no_fj_in_rest c h),
    beforeFirst_cut tb (by decide) ('\n' :: c ++ ['\n']) tb (by decide)
      (no_tb_before_fence c h),
    pyStrip_pad]

/-- The text a plain-fenced reply hands to the decoder is the stripped
content, provided the content has no triple backtick. -/
theorem respText_plainWrap (c : List Char) (h : containsSub tb c = false) :
    respText (plainWrap c) = pyStrip c := by
  have e1 : trimStart (plainWrap c) = plainWrap c := rfl
  have e3 : trimStart ((plainWrap c).reverse) = (plainWrap c).reverse := by
    rw [show plainWrap c = (tb ++ ('\n' :: c ++ ['\n'])) ++ tb from rfl,
      List.reverse_append]
    rfl
  have hw : pyStrip (plainWrap c) = plainWrap c := by
    show (trimStart (trimStart (plainWrap c)).reverse).reverse = plainWrap c
    rw [e1, e3, List.reverse_reverse]
  have hsf : lStartsWith fj (plainWrap c) = false := rfl
  have hst : lStartsWith tb (plainWrap c) = true := rfl
  have e4 : plainWrap c = tb ++ (('\n' :: c ++ ['\n']) ++ tb) :=
    List.append_assoc _ _ _
  simp only [respText]
  rw [hw]
  simp only [stripFences]
  rw [if_neg (by rw [hsf]; exact Bool.false_ne_true), if_pos hst, e4,
    List.drop_left,
    beforeFirst_cut tb (by decide) ('\n' :: c ++ ['\n']) tb (by decide)
      (no_tb_before_fence c h),
    beforeFirst_eq_self tb _ (containsSub_tb_pad c h),
    pyStrip_pad]

/-- A bare reply with no triple backtick hands its stripped self to the
decoder. -/
theorem respText_bare (c : List Char) (h : containsSub tb c = false) :
    respText c = pyStrip c := by
  simp only [respText]
  exact stripFences_id_of_noTB c h

/-- C4 counterexample: the claim fails as stated — for content containing
a triple backtick the three presentations disagree: `[]`-then-fence
content parses to zero segments when fenced (the stripping cuts at the
inner backticks) but is a JSON decode error when given bare. -/
theorem c4_fence_equivalence_counterexample :
    parseResponse (jsonWrap "[]```x".data) = .ok []
    ∧ parseResponse (plainWrap "[]```x".data) = .ok []
    ∧ parseResponse "[]```x".data = .error .jsonDecodeError :=
  ⟨rfl, rfl, rfl⟩

/-- C4 (amended): for every content string containing no triple
backtick, the parser produces the same result whether the content is
wrapped in a ```json fence, wrapped in a plain fence, or given bare —
all three reduce the reply to the stripped content; and the stripping
algorithm is as described: a text starting with the tagged fence is cut
between the fence-open and the next fence, a text starting with a plain
fence between the first and second fence occurrences, and any other text
is used unmodified. -/
theorem c4_fence_equivalence (c : List Char)
    (h : containsSub tb c = false) :
    respText (jsonWrap c) = pyStrip c
    ∧ respText (plainWrap c) = pyStrip c
    ∧ respText c = pyStrip c
    ∧ parseResponse (jsonWrap c) = parseResponse (plainWrap c)
    ∧ parseResponse (plainWrap c) = parseResponse c
    ∧ (∀ t : List Char, lStartsWith fj t = true →
        stripFences t =
          pyStrip (beforeFirst tb (beforeFirst fj (t.drop fj.length))))
    ∧ (∀ t : List Char, lStartsWith fj t = false →
        lStartsWith tb t = true →
        stripFences t =
          pyStrip (beforeFirst tb (beforeFirst tb (t.drop tb.length))))
    ∧ (∀ t : List Char, lStartsWith fj t = false →
        lStartsWith tb t = false → stripFences t = t) := by
  refine ⟨respText_jsonWrap c h, respText_plainWrap c h, respText_bare c h,
    ?_, ?_, ?_, ?_, ?_⟩
  · simp only [parseResponse, respText_jsonWrap c h, respText_plainWrap c h]
  · simp only [parseResponse, respText_plainWrap c h, respText_bare c h]
  · intro t ht
    simp [stripFences, ht]
  · intro t h1 h2
    simp [stripFences, h1, h2]
  · intro t h1 h2
    simp [stripFences, h1, h2]

/-- C4 witness: the equivalence applied to the backtick-free content
`[1]` — all three presentations reduce to the same stripped text and the
same parse result. -/
theorem c4_fence_equivalence_witness :
    respText (jsonWrap "[1]".data) = pyStrip "[1]".data
    ∧ respText (plainWrap "[1]".data) = pyStrip "[1]".data
    ∧ respText "[1]".data = pyStrip "[1]".data
    ∧ parseResponse (jsonWrap "[1]".data) =
        parseResponse (plainWrap "[1]".data)
    ∧ parseResponse (plainWrap "[1]".data) = parseResponse "[1]".data :=
  ⟨(c4_fence_equivalence "[1]".data (by decide)).1,
    (c4_fence_equivalence "[1]".data (by decide)).2.1,
    (c4_fence_equivalence "[1]".data (by decide)).2.2.1,
    (c4_fence_equivalence "[1]".data (by decide)).2.2.2.1,
    (c4_fence_equivalence "[1]".data (by decide)).2.2.2.2.1⟩
